import Mathlib

/-!
Verification development for the remesh reactive store engine
(`packages/remesh/src/store.ts`).

The TypeScript store is shallowly embedded as a state-passing interpreter:
storages are records keyed by canonical keys (abstracted as naturals), the
mutable JS `Set`s are insertion-ordered duplicate-free lists, and every
recursive procedure of the source takes an explicit fuel parameter (the
source recurses through the dependency graph; fuel exhaustion models the
stack overflow a cyclic graph would produce).  Exceptions (`throw`) are
modelled by an error result carrying the store at throw time, matching the
fact that a JS exception propagates while leaving prior mutations in place.
-/

namespace Remesh

/-- Canonical storage key (the source uses canonical key strings; the string
computation itself is modelled separately in the `Keys` section). -/
abbrev Key := Nat

/-- A reference to an upstream node, as stored in `upstreamSet` /
`wipUpstreamSet` (the source stores the storage objects themselves and
branches on their `type` tag). -/
inductive NodeRef where
  | state : Key → NodeRef
  | entity : Key → NodeRef
  | query : Key → NodeRef
deriving DecidableEq, Repr

/-- `status ∈ {default, wip, updated}` of a `RemeshQueryStorage`. -/
inductive QStatus where
  | default | wip | updated
deriving DecidableEq, Repr

/-- JS `Set.add`: insertion-ordered, no duplicates. -/
def addUniq {α : Type} [DecidableEq α] (xs : List α) (x : α) : List α :=
  if x ∈ xs then xs else xs ++ [x]

/-- JS `Set.delete`. -/
def removeAll {α : Type} [DecidableEq α] (xs : List α) (x : α) : List α :=
  xs.filter (fun y => y ≠ x)

section Model

variable (V : Type)

/-- A derived query's evaluation function, embedded as a decision tree of
tracked reads (`queryContext.get` calls); `throwErr` models a user
implementation that throws. -/
inductive QueryImpl where
  | ret : V → QueryImpl
  | readState : Key → (V → QueryImpl) → QueryImpl
  | readEntity : Key → (V → QueryImpl) → QueryImpl
  | readQuery : Key → (V → QueryImpl) → QueryImpl
  | throwErr : QueryImpl

/-- One atom of a `RemeshCommandOutput` (nested arrays are flattened into
the surrounding list, matching the recursive array walk of
`handleCommandOutput`). -/
inductive OutAtom where
  | stateUpd : Key → V → OutAtom
  | entityUpd : Key → V → OutAtom
  | entityDel : Key → OutAtom
  | eventAct : Key → V → OutAtom
  | commandAct : Key → V → OutAtom

/-- A command's implementation: reads through `commandContext.get`
(untracked, no edges) and finally returns its output list. -/
inductive CmdImpl where
  | ret : List (OutAtom V) → CmdImpl
  | readState : Key → (V → CmdImpl) → CmdImpl
  | readEntity : Key → (V → CmdImpl) → CmdImpl
  | readQuery : Key → (V → CmdImpl) → CmdImpl

/-- Members of `pendingEmitSet`.  The source stores storage objects and
action objects; notification payloads are read at flush time, so the model
stores keys only. -/
inductive EmitItem where
  | stateEmit : Key → EmitItem
  | entityEmit : Key → EmitItem
  | queryEmit : Key → EmitItem
  | entityDelete : Key → EmitItem
  | eventAct : Key → V → EmitItem
  | commandAct : Key → V → EmitItem
deriving DecidableEq, Repr

/-- A delivered notification (`subject.next` on a storage subject, or an
event/command subject); the model keeps an append-only log standing for
what subscribers observe. -/
inductive Notif where
  | stateN : Key → V → Notif
  | entityN : Key → Option V → Notif
  | queryN : Key → V → Notif
  | eventN : Key → V → Notif
  | commandN : Key → V → Notif
deriving DecidableEq, Repr

/-- `RemeshStateStorage` (subject/observable are represented by the
notification log of the store). -/
structure StateStorage where
  currentState : V
  downstreamSet : List Key
deriving DecidableEq, Repr

/-- `RemeshEntityStorage`; `currentEntity = none` is the JS `null`. -/
structure EntityStorage where
  currentEntity : Option V
  downstreamSet : List Key
deriving DecidableEq, Repr

/-- `RemeshQueryStorage`.  `upstreamGen` models the object identity of the
`upstreamSet` captured by a query context: `updateQueryStorage` installs a
fresh set (here: bumps the generation), and the context's
`queryStorage.upstreamSet !== upstreamSet` guard is the generation
comparison. -/
structure QueryStorage where
  currentValue : V
  upstreamSet : List NodeRef
  downstreamSet : List Key
  refCount : Nat
  status : QStatus
  wipUpstreamSet : List NodeRef
  upstreamGen : Nat
deriving DecidableEq, Repr

/-- The store state for one domain: the three keyed storage maps plus the
pending sets of the commit machinery and the notification log.  `running`
is the domain's ignition flag (consulted by `clearDomainStorage`). -/
structure Store where
  stateMap : List (Key × StateStorage V)
  entityMap : List (Key × EntityStorage V)
  queryMap : List (Key × QueryStorage V)
  pendingEmitSet : List (EmitItem V)
  pendingLeafSet : List Key
  pendingClearSet : List Key
  emitted : List (Notif V)
  running : Bool
deriving DecidableEq, Repr

/-- The immutable declarations: defaults, compare functions and
implementation functions, keyed by canonical key (the source reaches them
through the storage's `State`/`Query`/... field). -/
structure Decls where
  stateDefault : Key → V
  stateCompare : Key → V → V → Bool
  entityCompare : Key → V → V → Bool
  queryImpl : Key → QueryImpl V
  queryCompare : Key → V → V → Bool
  commandImpl : Key → V → CmdImpl V

/-- Result of a store operation: normal return, a propagating exception
(with the store at throw time), or fuel exhaustion (a model artifact for
the unbounded graph recursion of the source). -/
inductive Res (α : Type) where
  | ok : α → Store V → Res α
  | err : String → Store V → Res α
  | fuel : Res α
deriving DecidableEq

end Model

variable {V : Type} [DecidableEq V]

/-- Association-list lookup, JS `Map.get`. -/
def lookupA {α : Type} : List (Key × α) → Key → Option α
  | [], _ => none
  | p :: t, k => if p.1 = k then some p.2 else lookupA t k

/-- In-place mutation of the record stored under a key (JS mutates the
object behind the map); a missing key is a no-op (unreachable in the source,
which always holds the object). -/
def setA {α : Type} : List (Key × α) → Key → (α → α) → List (Key × α)
  | [], _, _ => []
  | p :: t, k, f => (if p.1 = k then (p.1, f p.2) else p) :: setA t k f

/-- JS `Map.delete` (keys are unique, so removing every binding of the key
is the same as removing the one entry). -/
def removeA {α : Type} : List (Key × α) → Key → List (Key × α)
  | [], _ => []
  | p :: t, k => if p.1 = k then removeA t k else p :: removeA t k

/-!
Basic facts about the association-list map primitives.
-/

theorem lookupA_setA_self {α : Type} (l : List (Key × α)) (k : Key) (f : α → α) :
    lookupA (setA l k f) k = (lookupA l k).map f := by
  induction l with
  | nil => rfl
  | cons p t ih =>
    by_cases h : p.1 = k <;> simp [lookupA, setA, h, ih]

theorem lookupA_setA_ne {α : Type} (l : List (Key × α)) (k j : Key) (f : α → α) (h : j ≠ k) :
    lookupA (setA l k f) j = lookupA l j := by
  induction l with
  | nil => rfl
  | cons p t ih =>
    by_cases hp : p.1 = k
    · have hj : ¬p.1 = j := fun hh => h ((hh ▸ hp : j = k))
      simp [lookupA, setA, hp, hj, ih, Ne.symm h]
    · by_cases hj : p.1 = j <;> simp [lookupA, setA, hp, hj, ih, h, Ne.symm h]

theorem lookupA_append {α : Type} (l : List (Key × α)) (k j : Key) (a : α) :
    lookupA (l ++ [(k, a)]) j =
      ((lookupA l j).orElse fun _ => if j = k then some a else none) := by
  induction l with
  | nil =>
    by_cases h : j = k
    · simp [lookupA, h]
    · simp [lookupA, h, Ne.symm h]
  | cons p t ih =>
    by_cases hj : p.1 = j <;> simp [lookupA, hj, ih]

theorem lookupA_removeA_self {α : Type} (l : List (Key × α)) (k : Key) :
    lookupA (removeA l k) k = none := by
  induction l with
  | nil => rfl
  | cons p t ih =>
    by_cases hp : p.1 = k <;> simp [lookupA, removeA, hp, ih]

theorem lookupA_removeA_ne {α : Type} (l : List (Key × α)) (k j : Key) (h : j ≠ k) :
    lookupA (removeA l k) j = lookupA l j := by
  induction l with
  | nil => rfl
  | cons p t ih =>
    by_cases hp : p.1 = k
    · have hj : ¬p.1 = j := fun hh => h ((hh ▸ hp : j = k))
      simp [lookupA, removeA, hp, hj, ih, Ne.symm h]
    · by_cases hj : p.1 = j <;> simp [lookupA, removeA, hp, hj, ih, h, Ne.symm h]

namespace Store

def lookupS (s : Store V) (k : Key) : Option (StateStorage V) := lookupA s.stateMap k

def lookupE (s : Store V) (k : Key) : Option (EntityStorage V) := lookupA s.entityMap k

def lookupQ (s : Store V) (k : Key) : Option (QueryStorage V) := lookupA s.queryMap k

def setS (s : Store V) (k : Key) (f : StateStorage V → StateStorage V) : Store V :=
  { s with stateMap := setA s.stateMap k f }

def setE (s : Store V) (k : Key) (f : EntityStorage V → EntityStorage V) : Store V :=
  { s with entityMap := setA s.entityMap k f }

def setQ (s : Store V) (k : Key) (f : QueryStorage V → QueryStorage V) : Store V :=
  { s with queryMap := setA s.queryMap k f }

/-- JS `Map.set` for a fresh key (insertion order at the end). -/
def insertS (s : Store V) (k : Key) (st : StateStorage V) : Store V :=
  { s with stateMap := s.stateMap ++ [(k, st)] }

def insertE (s : Store V) (k : Key) (st : EntityStorage V) : Store V :=
  { s with entityMap := s.entityMap ++ [(k, st)] }

def insertQ (s : Store V) (k : Key) (st : QueryStorage V) : Store V :=
  { s with queryMap := s.queryMap ++ [(k, st)] }

def removeE (s : Store V) (k : Key) : Store V :=
  { s with entityMap := removeA s.entityMap k }

def removeQ (s : Store V) (k : Key) : Store V :=
  { s with queryMap := removeA s.queryMap k }

def addEmit (s : Store V) (item : EmitItem V) : Store V :=
  { s with pendingEmitSet := addUniq s.pendingEmitSet item }

def addLeaf (s : Store V) (k : Key) : Store V :=
  { s with pendingLeafSet := addUniq s.pendingLeafSet k }

def addClear (s : Store V) (k : Key) : Store V :=
  { s with pendingClearSet := addUniq s.pendingClearSet k }

def pushNotif (s : Store V) (n : Notif V) : Store V :=
  { s with emitted := s.emitted ++ [n] }

end Store

/-- Sequencing of store operations; an exception or fuel exhaustion
short-circuits (JS exceptions propagate). -/
def Res.andThen {V α β : Type} : Res V α → (α → Store V → Res V β) → Res V β
  | .ok a s, f => f a s
  | .err e s, _ => .err e s
  | .fuel, _ => .fuel

/-- `getStateStorage`, restricted to the map-or-create path
(`createStateStorage` inserts a storage holding the declaration's default;
the weak-map restore path needs object identity and is outside this model). -/
def ensureState {V : Type} (D : Decls V) (k : Key) (s : Store V) :
    StateStorage V × Store V :=
  match s.lookupS k with
  | some ss => (ss, s)
  | none =>
    let ss : StateStorage V := { currentState := D.stateDefault k, downstreamSet := [] }
    (ss, s.insertS k ss)

/-- `getEntityStorage` (`createEntityStorage` starts with `currentEntity: null`). -/
def ensureEntity {V : Type} (D : Decls V) (k : Key) (s : Store V) :
    EntityStorage V × Store V :=
  match s.lookupE k with
  | some es => (es, s)
  | none =>
    let es : EntityStorage V := { currentEntity := none, downstreamSet := [] }
    (es, s.insertE k es)

/-- `getCurrentState`. -/
def getCurrentState {V : Type} (D : Decls V) (k : Key) (s : Store V) : V × Store V :=
  let (ss, s₁) := ensureState D k s
  (ss.currentState, s₁)

/-- `getCurrentEntity`: reading an entity whose `currentEntity` is `null`
throws. -/
def getCurrentEntity {V : Type} (D : Decls V) (k : Key) (s : Store V) : Res V V :=
  let (es, s₁) := ensureEntity D k s
  match es.currentEntity with
  | none => .err "entity-not-created" s₁
  | some v => .ok v s₁

variable {V : Type} [DecidableEq V]

/-- Add `qk` to the downstream set of the node `r` (one half of an edge). -/
def addDown (r : NodeRef) (qk : Key) (s : Store V) : Store V :=
  match r with
  | .state k => s.setS k fun ss => { ss with downstreamSet := addUniq ss.downstreamSet qk }
  | .entity k => s.setE k fun es => { es with downstreamSet := addUniq es.downstreamSet qk }
  | .query k => s.setQ k fun qs => { qs with downstreamSet := addUniq qs.downstreamSet qk }

/-- Add `r` to the upstream set of query `qk` (the other half of an edge). -/
def addUp (qk : Key) (r : NodeRef) (s : Store V) : Store V :=
  s.setQ qk fun qs => { qs with upstreamSet := addUniq qs.upstreamSet r }

/-- The tracked `queryContext.get` edge wiring of `updateQueryStorage`:
`queryStorage.upstreamSet.add(upstream)` together with
`upstream.downstreamSet.add(queryStorage)` — both directions in one step. -/
def addEdge (qk : Key) (r : NodeRef) (s : Store V) : Store V :=
  addDown r qk (addUp qk r s)

/-- The first loop of `updateQueryStorage` applied to one old upstream:
remove the query from the upstream's downstream set and, if the upstream is
a query storage whose downstream set became empty, schedule it on
`pendingClearSet` (entities "should be deleted manually, cannot be cleared
automatically", states are never refcount-collected). -/
def detachOne (qk : Key) (r : NodeRef) (s : Store V) : Store V :=
  match r with
  | .state k => s.setS k fun ss => { ss with downstreamSet := removeAll ss.downstreamSet qk }
  | .entity k => s.setE k fun es => { es with downstreamSet := removeAll es.downstreamSet qk }
  | .query uk =>
    let s' := s.setQ uk fun qs => { qs with downstreamSet := removeAll qs.downstreamSet qk }
    match s'.lookupQ uk with
    | some us => if us.downstreamSet.isEmpty then s'.addClear uk else s'
    | none => s'

/-- The whole first loop of `updateQueryStorage`: detach the query from all
of its previous upstream nodes.  This runs BEFORE the evaluation function is
invoked. -/
def detachOldUpstreams (qk : Key) (refs : List NodeRef) (s : Store V) : Store V :=
  refs.foldl (fun s r => detachOne qk r s) s

/-- The tail of `updateQueryStorage` after the evaluation function returned
`newValue`: compare against the stored value; when equal return `false`
leaving the store untouched, otherwise install the new value quietly and
queue the storage for notification. -/
def commitQueryValue (D : Decls V) (qk : Key) (v : V) (s : Store V) : Bool × Store V :=
  match s.lookupQ qk with
  | none => (false, s)
  | some qs =>
    if D.queryCompare qk qs.currentValue v then (false, s)
    else (true, (s.setQ qk fun q => { q with currentValue := v }).addEmit (.queryEmit qk))

/-- The tail of `updateWipQueryStorage`: set the status from the result of
`updateQueryStorage` (`updated` when the value changed, `default` otherwise). -/
def finishUpdate (qk : Key) : Res V Bool → Res V Unit
  | .ok b s => .ok () (s.setQ qk fun q => { q with status := if b then .updated else .default })
  | .err e s => .err e s
  | .fuel => .fuel

/-- `shouldClearQueryStorage`: refcount zero and no downstream remains. -/
def shouldClearQueryStorage (qs : QueryStorage V) : Bool :=
  qs.refCount = 0 && qs.downstreamSet.isEmpty

/-- `shouldClearDomainStorage` for the single modelled domain: no other
domain references it (the model has one domain) and every query storage it
owns has refcount zero (event storages, which the predicate also scans, are
not part of the model). -/
def shouldClearDomainStorage (s : Store V) : Bool :=
  s.queryMap.all fun p => p.2.refCount = 0

/-- `clearDomainStorage`: a domain that is not running returns immediately;
a running one is torn down.  The per-storage teardown internals (subject
completion, effect unsubscription, inspector notifications) are outside the
claims' scope; the observable outcome is that all owned storages leave the
maps and the domain stops running. -/
def clearDomainStorage (s : Store V) : Store V :=
  if !s.running then s
  else { s with stateMap := [], entityMap := [], queryMap := [], running := false }

def clearDomainStorageIfNeeded (s : Store V) : Store V :=
  if shouldClearDomainStorage s then clearDomainStorage s else s

/-- The gen guard of the tracked `get`: in `updateQueryStorage`'s context
the reads are tracked only while `queryStorage.upstreamSet` is still the
set installed by this very call (`!==` identity check, modelled by the
generation number); the creation context of `createQueryStorage` is only
ever used during that single evaluation, where its captured set is current. -/
def trackGuard (gen? : Option Nat) (qk : Key) (s : Store V) : Bool :=
  match gen? with
  | none => true
  | some g =>
    match s.lookupQ qk with
    | some qs => qs.upstreamGen = g
    | none => false

mutual

/-- `getQueryStorage`: return the storage registered under the key, creating
it on first access (the weak-map restore path needs object identity and is
outside this model). -/
def getQueryStorage (D : Decls V) : Nat → Key → Store V → Res V Unit
  | 0, _, _ => .fuel
  | n + 1, qk, s =>
    match s.lookupQ qk with
    | some _ => .ok () s
    | none => createQueryStorage D n qk s
termination_by structural n => n

/-- `createQueryStorage`: evaluate the query's implementation under the
creation context (which tracks state and query reads — but, unlike the
recomputation context of `updateQueryStorage`, has no branch for entity
items, so entity reads are not tracked), then register the storage holding
the produced value and the tracked upstream set. -/
def createQueryStorage (D : Decls V) : Nat → Key → Store V → Res V Unit
  | 0, _, _ => .fuel
  | n + 1, qk, s =>
    Res.andThen (evalQueryImpl D n none qk (D.queryImpl qk) s) fun (v, reads) s₁ =>
      let upstream := (reads.filter fun r =>
        match r with
        | .entity _ => false
        | _ => true).foldl addUniq []
      .ok () (s₁.insertQ qk
        { currentValue := v, upstreamSet := upstream, downstreamSet := [],
          refCount := 0, status := .default, wipUpstreamSet := [], upstreamGen := 0 })
termination_by structural n => n

/-- The evaluation of a query implementation under a tracked `get`
context.  `gen? = none` is the creation context of `createQueryStorage`
(state and query reads wire the downstream half of the edge; the upstream
half is the set the caller installs; entity reads are untracked there);
`gen? = some g` is the recomputation context of `updateQueryStorage`, which
wires both halves for state, entity and query reads while the gen guard
holds.  The returned list records every read performed, in order
(instrumentation only — it mutates nothing). -/
def evalQueryImpl (D : Decls V) :
    Nat → Option Nat → Key → QueryImpl V → Store V → Res V (V × List NodeRef)
  | 0, _, _, _, _ => .fuel
  | n + 1, gen?, qk, t, s =>
    match t with
    | .ret v => .ok (v, []) s
    | .throwErr => .err "query-impl-throw" s
    | .readState k cont =>
      let (ss, s₁) := ensureState D k s
      let s₂ :=
        match gen? with
        | none => addDown (.state k) qk s₁
        | some _ => if trackGuard gen? qk s₁ then addEdge qk (.state k) s₁ else s₁
      Res.andThen (evalQueryImpl D n gen? qk (cont ss.currentState) s₂) fun (v, tr) s₃ =>
        .ok (v, .state k :: tr) s₃
    | .readEntity k cont =>
      let (_, s₁) := ensureEntity D k s
      let s₂ :=
        match gen? with
        | none => s₁
        | some _ => if trackGuard gen? qk s₁ then addEdge qk (.entity k) s₁ else s₁
      Res.andThen (getCurrentEntity D k s₂) fun v s₃ =>
        Res.andThen (evalQueryImpl D n gen? qk (cont v) s₃) fun (v', tr) s₄ =>
          .ok (v', .entity k :: tr) s₄
    | .readQuery k cont =>
      Res.andThen (getQueryStorage D n k s) fun _ s₁ =>
        let s₂ :=
          match gen? with
          | none => addDown (.query k) qk s₁
          | some _ => if trackGuard gen? qk s₁ then addEdge qk (.query k) s₁ else s₁
        Res.andThen (getCurrentQueryValue D n k s₂) fun v s₃ =>
          Res.andThen (evalQueryImpl D n gen? qk (cont v) s₃) fun (v', tr) s₄ =>
            .ok (v', .query k :: tr) s₄
termination_by structural n => n

/-- `getCurrentQueryValue`: resolve the storage, settle it if it is
work-in-progress, and read its current value. -/
def getCurrentQueryValue (D : Decls V) : Nat → Key → Store V → Res V V
  | 0, _, _ => .fuel
  | n + 1, qk, s =>
    Res.andThen (getQueryStorage D n qk s) fun _ s₁ =>
      Res.andThen (updateWipQueryStorage D n qk s₁) fun _ s₂ =>
        match s₂.lookupQ qk with
        | some qs => .ok qs.currentValue s₂
        | none => .err "missing-query-storage" s₂
termination_by structural n => n

/-- `updateWipQueryStorage`: a non-`wip` storage is left alone; otherwise
resolve the recorded stale upstreams first (recursively settling `wip`
upstream queries), short-circuit to `default` if none of them actually
updated, and otherwise recompute via `updateQueryStorage`. -/
def updateWipQueryStorage (D : Decls V) : Nat → Key → Store V → Res V Unit
  | 0, _, _ => .fuel
  | n + 1, qk, s =>
    match s.lookupQ qk with
    | none => .ok () s
    | some qs =>
      if qs.status ≠ .wip then .ok () s
      else if qs.wipUpstreamSet.isEmpty then
        finishUpdate qk (updateQueryStorage D n qk s)
      else
        Res.andThen (settleWipUpstreams D n qs.wipUpstreamSet false s) fun shouldUpdate s₁ =>
          let s₂ := s₁.setQ qk fun q => { q with wipUpstreamSet := [] }
          if shouldUpdate then finishUpdate qk (updateQueryStorage D n qk s₂)
          else .ok () (s₂.setQ qk fun q => { q with status := .default })
termination_by structural n => n

/-- The upstream loop of `updateWipQueryStorage`: a state upstream forces an
update; a query upstream is settled first if it is `wip` and forces an
update if it settled to `updated`.  The source has no branch for entity
storages in this loop, so entity upstreams are skipped. -/
def settleWipUpstreams (D : Decls V) :
    Nat → List NodeRef → Bool → Store V → Res V Bool
  | 0, _, _, _ => .fuel
  | _ + 1, [], acc, s => .ok acc s
  | n + 1, r :: rest, acc, s =>
    match r with
    | .state _ => settleWipUpstreams D n rest true s
    | .entity _ => settleWipUpstreams D n rest acc s
    | .query uk =>
      match s.lookupQ uk with
      | none => settleWipUpstreams D n rest acc s
      | some us =>
        Res.andThen
          (if us.status = .wip then updateWipQueryStorage D n uk s else .ok () s)
          fun _ s₁ =>
            match s₁.lookupQ uk with
            | some us₁ => settleWipUpstreams D n rest (acc || us₁.status = .updated) s₁
            | none => settleWipUpstreams D n rest acc s₁
termination_by structural n => n

/-- `updateQueryStorage`: detach all old upstream edges, install a fresh
(empty) upstream set, re-run the implementation under the tracked context,
and commit the new value if it differs under the declared compare. -/
def updateQueryStorage (D : Decls V) : Nat → Key → Store V → Res V Bool
  | 0, _, _ => .fuel
  | n + 1, qk, s =>
    match s.lookupQ qk with
    | none => .err "missing-query-storage" s
    | some qs =>
      let s₁ := detachOldUpstreams qk qs.upstreamSet s
      let g := qs.upstreamGen + 1
      let s₂ := s₁.setQ qk fun q => { q with upstreamSet := [], upstreamGen := g }
      Res.andThen (evalQueryImpl D n (some g) qk (D.queryImpl qk) s₂) fun (v, _) s₃ =>
        let (b, s₄) := commitQueryValue D qk v s₃
        .ok b s₄
termination_by structural n => n

/-- `mark`: set the storage `wip`; propagate into downstream storages not
yet carrying this storage in their `wipUpstreamSet`, or record a leaf. -/
def mark (D : Decls V) : Nat → Key → Store V → Res V Unit
  | 0, _, _ => .fuel
  | n + 1, qk, s =>
    let s₁ := s.setQ qk fun q => { q with status := .wip }
    match s₁.lookupQ qk with
    | none => .ok () s₁
    | some qs =>
      if qs.downstreamSet.isEmpty then .ok () (s₁.addLeaf qk)
      else markDownstreamList D n qk qs.downstreamSet s₁
termination_by structural n => n

/-- The downstream loop of `mark`. -/
def markDownstreamList (D : Decls V) : Nat → Key → List Key → Store V → Res V Unit
  | 0, _, _, _ => .fuel
  | _ + 1, _, [], s => .ok () s
  | n + 1, qk, d :: rest, s =>
    match s.lookupQ d with
    | none => markDownstreamList D n qk rest s
    | some ds =>
      if NodeRef.query qk ∈ ds.wipUpstreamSet then markDownstreamList D n qk rest s
      else
        let s₁ := s.setQ d fun q => { q with wipUpstreamSet := addUniq q.wipUpstreamSet (.query qk) }
        Res.andThen (mark D n d s₁) fun _ s₂ => markDownstreamList D n qk rest s₂
termination_by structural n => n

/-- The downstream loops of `updateStateItem` / `updateEntityItem` (which
add the mutated storage to each downstream's `wipUpstreamSet` before
marking, `ref? = some _`) and of `deleteEntityItem` / `clearEntityStorage`
(which only mark, `ref? = none`). -/
def markDownstreams (D : Decls V) :
    Nat → Option NodeRef → List Key → Store V → Res V Unit
  | 0, _, _, _ => .fuel
  | _ + 1, _, [], s => .ok () s
  | n + 1, ref?, d :: rest, s =>
    let s₁ :=
      match ref? with
      | some r => s.setQ d fun q => { q with wipUpstreamSet := addUniq q.wipUpstreamSet r }
      | none => s
    Res.andThen (mark D n d s₁) fun _ s₂ => markDownstreams D n ref? rest s₂
termination_by structural n => n

/-- `updateStateItem`: a write whose value is equal under the declared
compare returns before touching anything; otherwise install the value,
queue the notification and mark all downstream queries. -/
def updateStateItem (D : Decls V) : Nat → Key → V → Store V → Res V Unit
  | 0, _, _, _ => .fuel
  | n + 1, k, v, s =>
    let (ss, s₁) := ensureState D k s
    if D.stateCompare k ss.currentState v then .ok () s₁
    else
      let s₂ := (s₁.setS k fun t => { t with currentState := v }).addEmit (.stateEmit k)
      markDownstreams D n (some (.state k)) ss.downstreamSet s₂

/-- `updateEntityItem`: first write just installs the entity (no
notification, no marking); later writes behave like state writes under the
entity compare. -/
def updateEntityItem (D : Decls V) : Nat → Key → V → Store V → Res V Unit
  | 0, _, _, _ => .fuel
  | n + 1, k, v, s =>
    let (es, s₁) := ensureEntity D k s
    match es.currentEntity with
    | none => .ok () (s₁.setE k fun e => { e with currentEntity := some v })
    | some old =>
      if D.entityCompare k old v then .ok () s₁
      else
        let s₂ := (s₁.setE k fun e => { e with currentEntity := some v }).addEmit (.entityEmit k)
        markDownstreams D n (some (.entity k)) es.downstreamSet s₂

/-- `deleteEntityItem`: null the value, mark every downstream query (without
recording the entity in their `wipUpstreamSet`), clear the entity's own
downstream set and queue the delete payload for the flush. -/
def deleteEntityItem (D : Decls V) : Nat → Key → Store V → Res V Unit
  | 0, _, _ => .fuel
  | n + 1, k, s =>
    let (es, s₁) := ensureEntity D k s
    let s₂ := s₁.setE k fun e => { e with currentEntity := none }
    Res.andThen (markDownstreams D n none es.downstreamSet s₂) fun _ s₃ =>
      .ok () ((s₃.setE k fun e => { e with downstreamSet := [] }).addEmit (.entityDelete k))

/-- `clearEntityStorage`: drop the storage from the domain's entity map,
complete its channel, and mark whatever was downstream. -/
def clearEntityStorage (D : Decls V) : Nat → Key → Store V → Res V Unit
  | 0, _, _ => .fuel
  | n + 1, k, s =>
    match s.lookupE k with
    | none => .ok () s
    | some es =>
      let s₁ := s.removeE k
      markDownstreams D n none es.downstreamSet s₁

/-- `clearQueryStorage`: drop the storage from the domain's query map,
detach it from its upstream neighbours (cascading collection into upstream
queries that become collectable), and give the domain a chance to clear. -/
def clearQueryStorage (D : Decls V) : Nat → Key → Store V → Res V Unit
  | 0, _, _ => .fuel
  | n + 1, qk, s =>
    match s.lookupQ qk with
    | none => .ok () s
    | some qs =>
      let s₁ := s.removeQ qk
      Res.andThen (clearUpstreamList D n qk qs.upstreamSet s₁) fun _ s₂ =>
        .ok () (clearDomainStorageIfNeeded s₂)
termination_by structural n => n

/-- The upstream loop of `clearQueryStorage`. -/
def clearUpstreamList (D : Decls V) :
    Nat → Key → List NodeRef → Store V → Res V Unit
  | 0, _, _, _ => .fuel
  | _ + 1, _, [], s => .ok () s
  | n + 1, qk, r :: rest, s =>
    let s₁ :=
      match r with
      | .state k => s.setS k fun ss => { ss with downstreamSet := removeAll ss.downstreamSet qk }
      | .entity k => s.setE k fun es => { es with downstreamSet := removeAll es.downstreamSet qk }
      | .query uk => s.setQ uk fun us => { us with downstreamSet := removeAll us.downstreamSet qk }
    Res.andThen
      (match r with
       | .query uk => clearQueryStorageIfNeeded D n uk s₁
       | _ => .ok () s₁)
      fun _ s₂ => clearUpstreamList D n qk rest s₂
termination_by structural n => n

/-- `clearQueryStorageIfNeeded`. -/
def clearQueryStorageIfNeeded (D : Decls V) : Nat → Key → Store V → Res V Unit
  | 0, _, _ => .fuel
  | n + 1, qk, s =>
    match s.lookupQ qk with
    | none => .ok () s
    | some qs =>
      if shouldClearQueryStorage qs then clearQueryStorage D n qk s else .ok () s
termination_by structural n => n

/-- `clearPendingStorageSetIfNeeded`: drain `pendingClearSet` to a fixed
point. -/
def clearPendingStorageSetIfNeeded (D : Decls V) : Nat → Store V → Res V Unit
  | 0, _ => .fuel
  | n + 1, s =>
    if s.pendingClearSet.isEmpty then .ok () s
    else
      let list := s.pendingClearSet
      let s₁ := { s with pendingClearSet := [] }
      Res.andThen (clearStorageList D n list s₁) fun _ s₂ =>
        clearPendingStorageSetIfNeeded D n s₂
termination_by structural n => n

def clearStorageList (D : Decls V) : Nat → List Key → Store V → Res V Unit
  | 0, _, _ => .fuel
  | _ + 1, [], s => .ok () s
  | n + 1, qk :: rest, s =>
    Res.andThen (clearQueryStorageIfNeeded D n qk s) fun _ s₁ =>
      clearStorageList D n rest s₁
termination_by structural n => n

/-- `clearPendingLeafSetIfNeeded`: settle every recorded propagation leaf,
draining the dynamic set until it is empty. -/
def clearPendingLeafSetIfNeeded (D : Decls V) : Nat → Store V → Res V Unit
  | 0, _ => .fuel
  | n + 1, s =>
    if s.pendingLeafSet.isEmpty then .ok () s
    else
      let list := s.pendingLeafSet
      let s₁ := { s with pendingLeafSet := [] }
      Res.andThen (settleLeafList D n list s₁) fun _ s₂ =>
        clearPendingLeafSetIfNeeded D n s₂
termination_by structural n => n

def settleLeafList (D : Decls V) : Nat → List Key → Store V → Res V Unit
  | 0, _, _ => .fuel
  | _ + 1, [], s => .ok () s
  | n + 1, qk :: rest, s =>
    Res.andThen (updateWipQueryStorage D n qk s) fun _ s₁ =>
      settleLeafList D n rest s₁
termination_by structural n => n

/-- `clearPendingEmitSetIfNeeded`: flush the queued notifications, skipping
items that were re-queued during this very flush, and recurse until the
dynamic set is empty. -/
def clearPendingEmitSetIfNeeded (D : Decls V) : Nat → Store V → Res V Unit
  | 0, _ => .fuel
  | n + 1, s =>
    if s.pendingEmitSet.isEmpty then .ok () s
    else
      let list := s.pendingEmitSet
      let s₁ := { s with pendingEmitSet := [] }
      Res.andThen (emitList D n list s₁) fun _ s₂ =>
        clearPendingEmitSetIfNeeded D n s₂
termination_by structural n => n

/-- The flush loop body: a storage item emits its value as read at flush
time (a completed/cleared storage's `next` is a no-op); a delete payload
clears the entity storage; event and command actions notify their channels. -/
def emitList (D : Decls V) : Nat → List (EmitItem V) → Store V → Res V Unit
  | 0, _, _ => .fuel
  | _ + 1, [], s => .ok () s
  | n + 1, item :: rest, s =>
    if item ∈ s.pendingEmitSet then emitList D n rest s
    else
      Res.andThen
        (match item with
         | .stateEmit k =>
           match s.lookupS k with
           | some ss => .ok () (s.pushNotif (.stateN k ss.currentState))
           | none => .ok () s
         | .entityEmit k =>
           match s.lookupE k with
           | some es => .ok () (s.pushNotif (.entityN k es.currentEntity))
           | none => .ok () s
         | .queryEmit k =>
           match s.lookupQ k with
           | some qs => .ok () (s.pushNotif (.queryN k qs.currentValue))
           | none => .ok () s
         | .entityDelete k =>
           let (_, s₁) := ensureEntity D k s
           clearEntityStorage D n k s₁
         | .eventAct e v => .ok () (s.pushNotif (.eventN e v))
         | .commandAct c v => .ok () (s.pushNotif (.commandN c v)))
        fun _ s₁ => emitList D n rest s₁
termination_by structural n => n

/-- `commit`: settle the marked leaves, run the deferred collections, flush
the notifications. -/
def commit (D : Decls V) : Nat → Store V → Res V Unit
  | 0, _ => .fuel
  | n + 1, s =>
    Res.andThen (clearPendingLeafSetIfNeeded D n s) fun _ s₁ =>
      Res.andThen (clearPendingStorageSetIfNeeded D n s₁) fun _ s₂ =>
        clearPendingEmitSetIfNeeded D n s₂

/-- `handleCommandOutput` on the flattened output list. -/
def handleCommandOutput (D : Decls V) : Nat → List (OutAtom V) → Store V → Res V Unit
  | 0, _, _ => .fuel
  | _ + 1, [], s => .ok () s
  | n + 1, atom :: rest, s =>
    Res.andThen
      (match atom with
       | .stateUpd k v => updateStateItem D n k v s
       | .entityUpd k v => updateEntityItem D n k v s
       | .entityDel k => deleteEntityItem D n k s
       | .eventAct e v => .ok () (s.addEmit (.eventAct e v))
       | .commandAct c v => handleCommandAction D n c v s)
      fun _ s₁ => handleCommandOutput D n rest s₁
termination_by structural n => n

/-- `handleCommandAction`: queue the command notification, run the command's
implementation under the untracked `get` context, feed its output back. -/
def handleCommandAction (D : Decls V) : Nat → Key → V → Store V → Res V Unit
  | 0, _, _, _ => .fuel
  | n + 1, c, arg, s =>
    let s₁ := s.addEmit (.commandAct c arg)
    Res.andThen (evalCmdImpl D n (D.commandImpl c arg) s₁) fun out s₂ =>
      handleCommandOutput D n out s₂
termination_by structural n => n

/-- A command implementation's reads go through `remeshInjectedContext.get`
directly: no edges are recorded. -/
def evalCmdImpl (D : Decls V) : Nat → CmdImpl V → Store V → Res V (List (OutAtom V))
  | 0, _, _ => .fuel
  | n + 1, t, s =>
    match t with
    | .ret out => .ok out s
    | .readState k cont =>
      let (v, s₁) := getCurrentState D k s
      evalCmdImpl D n (cont v) s₁
    | .readEntity k cont =>
      Res.andThen (getCurrentEntity D k s) fun v s₁ =>
        evalCmdImpl D n (cont v) s₁
    | .readQuery k cont =>
      Res.andThen (getCurrentQueryValue D n k s) fun v s₁ =>
        evalCmdImpl D n (cont v) s₁
termination_by structural n => n

end

/-- `send`: apply a command output, then commit synchronously. -/
def send (D : Decls V) : Nat → List (OutAtom V) → Store V → Res V Unit
  | 0, _, _ => .fuel
  | n + 1, out, s =>
    Res.andThen (handleCommandOutput D n out s) fun _ s₁ => commit D n s₁

/-- The empty store of a fresh domain (not yet ignited). -/
def emptyStore (V : Type) : Store V :=
  { stateMap := [], entityMap := [], queryMap := [], pendingEmitSet := [],
    pendingLeafSet := [], pendingClearSet := [], emitted := [], running := false }

/-- From-scratch evaluation of a query implementation against the store's
current state/entity values, resolving query reads by fresh recursive
evaluation of their implementations.  This is the specification-side
"evaluate fresh against the final state/entity values" of the determinism
property; it mutates nothing. -/
def freshEval (D : Decls V) : Nat → QueryImpl V → Store V → Option V
  | 0, _, _ => none
  | n + 1, t, s =>
    match t with
    | .ret v => some v
    | .throwErr => none
    | .readState k cont =>
      match s.lookupS k with
      | some ss => freshEval D n (cont ss.currentState) s
      | none => freshEval D n (cont (D.stateDefault k)) s
    | .readEntity k cont =>
      match s.lookupE k with
      | some es =>
        match es.currentEntity with
        | some v => freshEval D n (cont v) s
        | none => none
      | none => none
    | .readQuery k cont =>
      match freshEval D n (D.queryImpl k) s with
      | some v => freshEval D n (cont v) s
      | none => none

/-- Run observation: the store after a successful operation. -/
def runOk {V : Type} : Res V Unit → Option (Store V)
  | .ok _ s => some s
  | _ => none

/-- Run observation: value and store after a successful value-returning
operation. -/
def runVal {V : Type} : Res V V → Option (V × Store V)
  | .ok v s => some (v, s)
  | _ => none

/-- Observation helpers on stores. -/
def queryValue (s : Store V) (k : Key) : Option V := (s.lookupQ k).map (·.currentValue)

def queryStatus (s : Store V) (k : Key) : Option QStatus := (s.lookupQ k).map (·.status)

def stateValue (s : Store V) (k : Key) : Option V := (s.lookupS k).map (·.currentState)

/-!
## Identity and key resolution

`getStateStorageKey` / `getQueryStorageKey` derive the canonical textual
identity of a node instance.  A query argument is serialized with
`JSON.stringify(queryAction.arg) ?? ''`; JSON values are modelled below and
`stringify` follows `JSON.stringify` in serializing an object's fields in
their stored (insertion) order.
-/

inductive JsonVal where
  | null : JsonVal
  | bool : Bool → JsonVal
  | num : Int → JsonVal
  | str : String → JsonVal
  | arr : List JsonVal → JsonVal
  | obj : List (String × JsonVal) → JsonVal

def quoteStr (s : String) : String := "\"" ++ s ++ "\""

mutual

def stringify : JsonVal → String
  | .null => "null"
  | .bool true => "true"
  | .bool false => "false"
  | .num n => toString n
  | .str s => quoteStr s
  | .arr xs => "[" ++ stringifyElems xs ++ "]"
  | .obj fs => "\x7b" ++ stringifyFields fs ++ "\x7d"

def stringifyElems : List JsonVal → String
  | [] => ""
  | [x] => stringify x
  | x :: xs => stringify x ++ "," ++ stringifyElems xs

def stringifyFields : List (String × JsonVal) → String
  | [] => ""
  | [(k, v)] => quoteStr k ++ ":" ++ stringify v
  | (k, v) :: fs => quoteStr k ++ ":" ++ stringify v ++ "," ++ stringifyFields fs

end

/-- `JSON.stringify(arg) ?? ''`: a missing argument (`undefined`)
serializes to the empty string. -/
def stringifyArg : Option JsonVal → String
  | some a => stringify a
  | none => ""

/-- `getQueryStorageKey`: `Query/<queryId>/<queryName>:<argString>`. -/
def getQueryStorageKey (queryId : Nat) (queryName : String) (arg : Option JsonVal) : String :=
  "Query/" ++ toString queryId ++ "/" ++ queryName ++ ":" ++ stringifyArg arg

/-- `getStateStorageKey`: `State/<stateId>/<stateName>:<key ?? ''>` (a state
item's key is already a string). -/
def getStateStorageKey (stateId : Nat) (stateName : String) (key : Option String) : String :=
  "State/" ++ toString stateId ++ "/" ++ stateName ++ ":" ++ key.getD ""

/-!
## Deferred commit scheduling

`commitOnNextTick` captures `tick = currentTick++` and schedules a
microtask that runs `commit()` only when `tick === currentTick` still holds
at flush time.  The model records the captured tick of every scheduled
flush; draining the microtask queue with no further scheduling runs
`commit()` once per scheduled flush whose captured tick equals the final
counter value.
-/

structure TickState where
  currentTick : Nat
  scheduled : List Nat
deriving DecidableEq, Repr

def initTickState : TickState := { currentTick := 0, scheduled := [] }

/-- One call of `commitOnNextTick`: `let tick = currentTick++` captures the
pre-increment counter and registers the flush. -/
def commitOnNextTick (ts : TickState) : TickState :=
  { currentTick := ts.currentTick + 1, scheduled := ts.scheduled ++ [ts.currentTick] }

/-- The number of scheduled flushes that actually run `commit()` when the
microtask queue drains with no further scheduling: those whose captured
tick equals the current counter. -/
def flushCommitCount (ts : TickState) : Nat :=
  ts.scheduled.countP (fun t => t = ts.currentTick)

/-- The tick state after `k` consecutive `commitOnNextTick` calls within one
cooperative tick. -/
def ticksAfter : Nat → TickState
  | 0 => initTickState
  | k + 1 => commitOnNextTick (ticksAfter k)

/-!
## Facts about the deferred-commit scheduler
-/

theorem ticksAfter_currentTick (k : Nat) : (ticksAfter k).currentTick = k := by
  induction k with
  | zero => rfl
  | succ k ih => simp [ticksAfter, commitOnNextTick, ih]

theorem ticksAfter_scheduled (k : Nat) : (ticksAfter k).scheduled = List.range k := by
  induction k with
  | zero => rfl
  | succ k ih =>
    simp [ticksAfter, commitOnNextTick, ih, ticksAfter_currentTick, List.range_succ]

/-!
## Claim-level concrete scenarios

All concrete runs use `V := Int`.
-/

/-- A trivial declaration table used for witness instantiations. -/
def DW : Decls Int :=
  { stateDefault := fun _ => 0
    stateCompare := fun _ a b => a == b
    entityCompare := fun _ a b => a == b
    queryImpl := fun _ => .ret 0
    queryCompare := fun _ a b => a == b
    commandImpl := fun _ _ => .ret [] }

/-- C1 scenario: query 2 reads entity 5 and is first evaluated (storage
creation) after the entity exists; the entity is then updated. -/
def DC1 : Decls Int :=
  { stateDefault := fun _ => 0
    stateCompare := fun _ a b => a == b
    entityCompare := fun _ a b => a == b
    queryImpl := fun k => if k = 2 then .readEntity 5 (fun v => .ret v) else .ret 0
    queryCompare := fun _ a b => a == b
    commandImpl := fun _ _ => .ret [] }

/-- C8 scenario: guard state 0, entity 5; query 4 reads the entity while the
guard is 0 and yields 99 otherwise. -/
def DC8 : Decls Int :=
  { stateDefault := fun _ => 0
    stateCompare := fun _ a b => a == b
    entityCompare := fun _ a b => a == b
    queryImpl := fun k =>
      if k = 4 then
        .readState 0 (fun g => if g == 0 then .readEntity 5 (fun v => .ret v) else .ret 99)
      else .ret 0
    queryCompare := fun _ a b => a == b
    commandImpl := fun _ _ => .ret [] }

/-- C5 scenario: states 0 and 9; query 6 reads state 0 and, unless it is 1,
also state 9; when state 0 is 1 the implementation throws. -/
def DC5 : Decls Int :=
  { stateDefault := fun _ => 0
    stateCompare := fun _ a b => a == b
    entityCompare := fun _ a b => a == b
    queryImpl := fun k =>
      if k = 6 then
        .readState 0 (fun v => if v == 1 then .throwErr else .readState 9 (fun w => .ret (v + w)))
      else .ret 0
    queryCompare := fun _ a b => a == b
    commandImpl := fun _ _ => .ret [] }

/-- The store carried by a propagating exception. -/
def errStore {V : Type} : Res V Unit → Option (Store V)
  | .err _ s => some s
  | _ => none


/-- After dispatching `entity 5 := 1` into the empty store. -/
def c1s1 : Store Int :=
  { stateMap := [],
    entityMap := [(5, { currentEntity := some 1, downstreamSet := [] })],
    queryMap := [],
    pendingEmitSet := [],
    pendingLeafSet := [],
    pendingClearSet := [],
    emitted := [],
    running := false }

/-- After the first read of query 2, whose storage is created by
`createQueryStorage`: note the EMPTY `upstreamSet` and the empty downstream
set of entity 5 — the creation context did not track the entity read. -/
def c1s2 : Store Int :=
  { stateMap := [],
    entityMap := [(5, { currentEntity := some 1, downstreamSet := [] })],
    queryMap := [(2,
                  { currentValue := 1,
                    upstreamSet := [],
                    downstreamSet := [],
                    refCount := 0,
                    status := Remesh.QStatus.default,
                    wipUpstreamSet := [],
                    upstreamGen := 0 })],
    pendingEmitSet := [],
    pendingLeafSet := [],
    pendingClearSet := [],
    emitted := [],
    running := false }

/-- After dispatching `entity 5 := 7`: with no edge, query 2 is neither
marked nor recomputed and keeps the stale value 1. -/
def c1s3 : Store Int :=
  { stateMap := [],
    entityMap := [(5, { currentEntity := some 7, downstreamSet := [] })],
    queryMap := [(2,
                  { currentValue := 1,
                    upstreamSet := [],
                    downstreamSet := [],
                    refCount := 0,
                    status := Remesh.QStatus.default,
                    wipUpstreamSet := [],
                    upstreamGen := 0 })],
    pendingEmitSet := [],
    pendingLeafSet := [],
    pendingClearSet := [],
    emitted := [Remesh.Notif.entityN 5 (some 7)],
    running := false }

/-- After dispatching `entity 5 := 7` into the empty store. -/
def c8s1 : Store Int :=
  { stateMap := [],
    entityMap := [(5, { currentEntity := some 7, downstreamSet := [] })],
    queryMap := [],
    pendingEmitSet := [],
    pendingLeafSet := [],
    pendingClearSet := [],
    emitted := [],
    running := false }

/-- After the first read of query 4 (guard 0, so it read the entity; the
creation context tracked only the state read). -/
def c8s2 : Store Int :=
  { stateMap := [(0, { currentState := 0, downstreamSet := [4] })],
    entityMap := [(5, { currentEntity := some 7, downstreamSet := [] })],
    queryMap := [(4,
                  { currentValue := 7,
                    upstreamSet := [Remesh.NodeRef.state 0],
                    downstreamSet := [],
                    refCount := 0,
                    status := Remesh.QStatus.default,
                    wipUpstreamSet := [],
                    upstreamGen := 0 })],
    pendingEmitSet := [],
    pendingLeafSet := [],
    pendingClearSet := [],
    emitted := [],
    running := false }

/-- After a guard round-trip `0 := 1; 0 := 0`: the recomputation context
wired the entity edge both ways, and the equal value kept status `default`. -/
def c8s3 : Store Int :=
  { stateMap := [(0, { currentState := 0, downstreamSet := [4] })],
    entityMap := [(5, { currentEntity := some 7, downstreamSet := [4] })],
    queryMap := [(4,
                  { currentValue := 7,
                    upstreamSet := [Remesh.NodeRef.state 0, Remesh.NodeRef.entity 5],
                    downstreamSet := [],
                    refCount := 0,
                    status := Remesh.QStatus.default,
                    wipUpstreamSet := [],
                    upstreamGen := 1 })],
    pendingEmitSet := [],
    pendingLeafSet := [],
    pendingClearSet := [],
    emitted := [Remesh.Notif.stateN 0 0],
    running := false }

/-- After the dispatch phase of `[0 := 1, delete entity 5]` (before
`commit`): the entity slot is still in the map with a nulled value, and
query 4 is marked `wip`. -/
def c8s4 : Store Int :=
  { stateMap := [(0, { currentState := 1, downstreamSet := [4] })],
    entityMap := [(5, { currentEntity := none, downstreamSet := [] })],
    queryMap := [(4,
                  { currentValue := 7,
                    upstreamSet := [Remesh.NodeRef.state 0, Remesh.NodeRef.entity 5],
                    downstreamSet := [],
                    refCount := 0,
                    status := Remesh.QStatus.wip,
                    wipUpstreamSet := [Remesh.NodeRef.state 0],
                    upstreamGen := 1 })],
    pendingEmitSet := [Remesh.EmitItem.stateEmit 0, Remesh.EmitItem.entityDelete 5],
    pendingLeafSet := [4],
    pendingClearSet := [],
    emitted := [Remesh.Notif.stateN 0 0],
    running := false }

/-- After the full deleting dispatch: the flush ran `clearEntityStorage`,
removing the entity storage from the entity map; query 4 recomputed to 99. -/
def c8s5 : Store Int :=
  { stateMap := [(0, { currentState := 1, downstreamSet := [4] })],
    entityMap := [],
    queryMap := [(4,
                  { currentValue := 99,
                    upstreamSet := [Remesh.NodeRef.state 0],
                    downstreamSet := [],
                    refCount := 0,
                    status := Remesh.QStatus.updated,
                    wipUpstreamSet := [],
                    upstreamGen := 2 })],
    pendingEmitSet := [],
    pendingLeafSet := [],
    pendingClearSet := [],
    emitted := [Remesh.Notif.stateN 0 0, Remesh.Notif.stateN 0 1, Remesh.Notif.queryN 4 99],
    running := false }

/-- After the first read of query 6 (upstream edges to states 0 and 9). -/
def c5s1 : Store Int :=
  { stateMap := [(0, { currentState := 0, downstreamSet := [6] }), (9, { currentState := 0, downstreamSet := [6] })],
    entityMap := [],
    queryMap := [(6,
                  { currentValue := 0,
                    upstreamSet := [Remesh.NodeRef.state 0, Remesh.NodeRef.state 9],
                    downstreamSet := [],
                    refCount := 0,
                    status := Remesh.QStatus.default,
                    wipUpstreamSet := [],
                    upstreamGen := 0 })],
    pendingEmitSet := [],
    pendingLeafSet := [],
    pendingClearSet := [],
    emitted := [],
    running := false }

/-- The store carried by the exception of dispatching `state 0 := 1`: the
state write persists, query 6 is stuck `wip` with a partially rebuilt edge
set (state 9 already detached), and the state notification is still queued,
unflushed. -/
def c5s2 : Store Int :=
  { stateMap := [(0, { currentState := 1, downstreamSet := [6] }), (9, { currentState := 0, downstreamSet := [] })],
    entityMap := [],
    queryMap := [(6,
                  { currentValue := 0,
                    upstreamSet := [Remesh.NodeRef.state 0],
                    downstreamSet := [],
                    refCount := 0,
                    status := Remesh.QStatus.wip,
                    wipUpstreamSet := [],
                    upstreamGen := 1 })],
    pendingEmitSet := [Remesh.EmitItem.stateEmit 0],
    pendingLeafSet := [],
    pendingClearSet := [],
    emitted := [],
    running := false }

/-!
## Claim theorems
-/

/-- C1: the spec claims that after any dispatch sequence every live derived
query's stored value equals a fresh evaluation of its implementation
against the final state/entity values.  The code drifts: the creation
context of `createQueryStorage` has no branch for entity items, so a query
whose first evaluation reads an entity gets no upstream edge to it; a later
entity update then marks nothing and the query keeps its stale value.
This theorem evaluates the code at the failing input: after
`entity 5 := 1`, a first read of query 2 (which returns the entity), and
`entity 5 := 7`, the stored value is still 1 while the fresh evaluation
gives 7. -/
theorem claim_C1_drift :
    send DC1 12 [.entityUpd 5 1] (emptyStore Int) = .ok () c1s1 ∧
    getCurrentQueryValue DC1 12 2 c1s1 = .ok 1 c1s2 ∧
    send DC1 12 [.entityUpd 5 7] c1s2 = .ok () c1s3 ∧
    queryValue c1s3 2 = some 1 ∧
    freshEval DC1 12 (DC1.queryImpl 2) c1s3 = some 7 ∧
    queryValue c1s3 2 ≠ freshEval DC1 12 (DC1.queryImpl 2) c1s3 :=
  ⟨by decide, by decide, by decide, by decide, by decide, by decide⟩

/-- C2: the spec claims that of a group of same-tick `commitOnNextTick`
schedules exactly the most recent one runs `commit()` (its captured tick
equalling the current counter).  But `let tick = currentTick++` captures the
counter BEFORE incrementing it, and nothing ever decrements the counter, so
at drain time every scheduled flush — including the most recent — sees
`tick = currentTick - (later schedules) - 1 ≠ currentTick` and no-ops:
after `k ≥ 1` schedules the number of flushes that commit is 0, not 1. -/
theorem claim_C2_no_flush_commits (k : Nat) : flushCommitCount (ticksAfter k) = 0 := by
  unfold flushCommitCount
  rw [ticksAfter_scheduled, ticksAfter_currentTick, List.countP_eq_zero]
  intro a ha
  simp only [List.mem_range] at ha
  simp [Nat.ne_of_lt ha]

/-- After `deleteEntityItem` on entity 5 (run directly on the quiescent
store `c8s3`): the entity's downstream set is cleared while query 4 still
lists the entity upstream. -/
def c6s1 : Store Int :=
  { stateMap := [(0, { currentState := 0, downstreamSet := [4] })],
    entityMap := [(5, { currentEntity := none, downstreamSet := [] })],
    queryMap := [(4,
                  { currentValue := 7,
                    upstreamSet := [Remesh.NodeRef.state 0, Remesh.NodeRef.entity 5],
                    downstreamSet := [],
                    refCount := 0,
                    status := Remesh.QStatus.wip,
                    wipUpstreamSet := [],
                    upstreamGen := 1 })],
    pendingEmitSet := [Remesh.EmitItem.entityDelete 5],
    pendingLeafSet := [4],
    pendingClearSet := [],
    emitted := [Remesh.Notif.stateN 0 0],
    running := false }

/-- C5 counterexample: the spec claims a throwing recomputation leaves the
data model in last-good-commit state.  On the concrete run the dispatch
`state 0 := 1` makes query 6's recomputation throw; the throw does reach
the `send` caller, but the already-performed state write persists (state 0
is 1 afterwards, not the last-good 0). -/
theorem claim_C5_counterexample :
    getCurrentQueryValue DC5 12 6 (emptyStore Int) = .ok 0 c5s1 ∧
    stateValue c5s1 0 = some 0 ∧
    send DC5 12 [.stateUpd 0 1] c5s1 = .err "query-impl-throw" c5s2 ∧
    stateValue c5s2 0 = some 1 :=
  ⟨by decide, by decide, by decide, by decide⟩

/-- C6 counterexample: the spec claims that after every store operation
`A ∈ B.upstream ↔ B ∈ A.downstream`.  `deleteEntityItem` clears only the
entity's downstream set: afterwards entity 5 is still in query 4's upstream
set while query 4 is no longer in entity 5's downstream set. -/
theorem claim_C6_counterexample :
    deleteEntityItem DC8 12 5 c8s3 = .ok () c6s1 ∧
    (c8s3.lookupQ 4).map (·.upstreamSet) = some [.state 0, .entity 5] ∧
    (c8s3.lookupE 5).map (·.downstreamSet) = some [4] ∧
    (c6s1.lookupQ 4).map (·.upstreamSet) = some [.state 0, .entity 5] ∧
    (c6s1.lookupE 5).map (·.downstreamSet) = some [] ∧
    ¬(4 ∈ ((c6s1.lookupE 5).map (·.downstreamSet)).getD []) :=
  ⟨by decide, by decide, by decide, by decide, by decide, by decide⟩

omit [DecidableEq V] in
/-- C7: reading an entity that has never been created, or has been deleted
and not re-created (its storage's `currentEntity` is `null`), throws
synchronously: `getCurrentEntity` — the single function behind every entity
read of the injected `get` context — returns the thrown error rather than a
value. -/
theorem claim_C7_unset_entity_read_throws (D : Decls V) (k : Key) (s : Store V)
    (h : s.lookupE k = none ∨ ∃ es, s.lookupE k = some es ∧ es.currentEntity = none) :
    ∃ s', getCurrentEntity D k s = .err "entity-not-created" s' := by
  unfold getCurrentEntity ensureEntity
  rcases h with h | ⟨es, h, he⟩
  · rw [h]; exact ⟨_, rfl⟩
  · rw [h]; simp only [he]; exact ⟨_, rfl⟩

theorem claim_C7_witness :
    (∃ s', getCurrentEntity DW 3 (emptyStore Int) = .err "entity-not-created" s') ∧
    (∃ s', getCurrentEntity DC8 5 c8s4 = .err "entity-not-created" s') :=
  ⟨claim_C7_unset_entity_read_throws DW 3 (emptyStore Int) (Or.inl (by decide)),
   claim_C7_unset_entity_read_throws DC8 5 c8s4
     (Or.inr ⟨{ currentEntity := none, downstreamSet := [] }, by decide, rfl⟩)⟩

/-- C8 counterexample: the spec claims the deleting commit leaves the
entity's storage slot in its domain's entity map.  On the concrete run the
commit's flush runs `clearEntityStorage`, which deletes the slot: the map
held the key before the deleting dispatch and no longer holds it after. -/
theorem claim_C8_counterexample :
    send DC8 12 [.stateUpd 0 1, .entityDel 5] c8s3 = .ok () c8s5 ∧
    (c8s3.lookupE 5).isSome = true ∧
    c8s5.lookupE 5 = none :=
  ⟨by decide, by decide, by decide⟩

/-- C8 amended: dispatching the delete payload nulls the value (reads fail
again) and marks downstream queries stale, and `deleteEntityItem` itself
leaves the slot in the map; but the commit's flush then runs
`clearEntityStorage`, which removes the slot from the domain's entity map —
a later access re-creates the storage (so re-creation still works, just not
through a persisting map slot).  The marked query did recompute (99). -/
theorem claim_C8_amended :
    handleCommandOutput DC8 12 [.stateUpd 0 1, .entityDel 5] c8s3 = .ok () c8s4 ∧
    (c8s4.lookupE 5).map (·.currentEntity) = some none ∧
    (∃ s', getCurrentEntity DC8 5 c8s4 = .err "entity-not-created" s') ∧
    queryStatus c8s4 4 = some .wip ∧
    send DC8 12 [.stateUpd 0 1, .entityDel 5] c8s3 = .ok () c8s5 ∧
    queryValue c8s5 4 = some 99 ∧
    c8s5.lookupE 5 = none ∧
    ((ensureEntity DC8 5 c8s5).2.lookupE 5).isSome = true :=
  ⟨by decide, by decide, ⟨c8s4, by decide⟩, by decide, by decide, by decide, by decide, by decide⟩

/-- C9 counterexample: the spec claims the argument is serialized via a
canonical, order-independent encoding, so structurally equal objects with
reordered fields resolve to the same key.  The source serializes with
`JSON.stringify`, which keeps insertion order: the two permuted objects
below produce different canonical keys (hence different storages). -/
theorem claim_C9_counterexample :
    List.Perm [("a", JsonVal.num 1), ("b", JsonVal.num 2)]
      [("b", JsonVal.num 2), ("a", JsonVal.num 1)] ∧
    getQueryStorageKey 7 "q" (some (.obj [("a", .num 1), ("b", .num 2)])) ≠
      getQueryStorageKey 7 "q" (some (.obj [("b", .num 2), ("a", .num 1)])) :=
  ⟨List.Perm.swap _ _ _, by decide⟩

/-- C9 amended: identity resolution is a deterministic pure function of
declaration id, name and the `JSON.stringify` serialization of the
argument — equal serializations (not merely structurally equal arguments)
give equal keys, and a missing argument encodes as the empty string. -/
theorem claim_C9_amended :
    (∀ (i : Nat) (nm : String) (a b : Option JsonVal), stringifyArg a = stringifyArg b →
        getQueryStorageKey i nm a = getQueryStorageKey i nm b) ∧
    (∀ (i : Nat) (nm : String),
        getQueryStorageKey i nm none = "Query/" ++ toString i ++ "/" ++ nm ++ ":") ∧
    (∀ (i : Nat) (nm : String),
        getStateStorageKey i nm none = "State/" ++ toString i ++ "/" ++ nm ++ ":") := by
  refine ⟨fun i nm a b h => ?_, fun i nm => ?_, fun i nm => ?_⟩
  · unfold getQueryStorageKey; rw [h]
  · simp [getQueryStorageKey, stringifyArg]
  · simp [getStateStorageKey]

theorem claim_C9_witness :
    getQueryStorageKey 7 "q" (some (.obj [])) = getQueryStorageKey 7 "q" (some (.obj [])) ∧
    getQueryStorageKey 7 "q" none = "Query/7/q:" :=
  ⟨claim_C9_amended.1 7 "q" (some (.obj [])) (some (.obj [])) rfl,
   (claim_C9_amended.2.1 7 "q").trans (by decide)⟩

/-- C5 witness scenario: a declaration table whose commands read an unset
entity, making the dispatch phase itself throw. -/
def DC5w : Decls Int :=
  { stateDefault := fun _ => 0
    stateCompare := fun _ a b => a == b
    entityCompare := fun _ a b => a == b
    queryImpl := fun _ => .ret 0
    queryCompare := fun _ a b => a == b
    commandImpl := fun _ _ => .readEntity 0 (fun _ => .ret []) }

/-- The store carried by the exception of `handleCommandOutput` running a
`DC5w` command (the command notification is already queued, the entity
storage was created unset by the read). -/
def c5w : Store Int :=
  { stateMap := [],
    entityMap := [(0, { currentEntity := none, downstreamSet := [] })],
    queryMap := [],
    pendingEmitSet := [Remesh.EmitItem.commandAct 0 0],
    pendingLeafSet := [],
    pendingClearSet := [],
    emitted := [],
    running := false }

/-- The store after the dispatch phase of `state 0 := 1` on `c5s1` (before
the commit whose recomputation throws). -/
def c5s1b : Store Int :=
  { stateMap := [(0, { currentState := 1, downstreamSet := [6] }), (9, { currentState := 0, downstreamSet := [6] })],
    entityMap := [],
    queryMap := [(6,
                  { currentValue := 0,
                    upstreamSet := [Remesh.NodeRef.state 0, Remesh.NodeRef.state 9],
                    downstreamSet := [],
                    refCount := 0,
                    status := Remesh.QStatus.wip,
                    wipUpstreamSet := [Remesh.NodeRef.state 0],
                    upstreamGen := 0 })],
    pendingEmitSet := [Remesh.EmitItem.stateEmit 0],
    pendingLeafSet := [6],
    pendingClearSet := [],
    emitted := [],
    running := false }

/-- C5 amended: a throw during a dispatch is never caught — `send` surfaces
it synchronously whether it arises in the dispatch phase or in the commit's
recomputations (first two conjuncts) — and the pass is abandoned as-is
rather than rolled back: on the concrete throwing run, the applied state
write persists, the throwing query stays `wip` with only the edges read
before the throw re-added (its old edges were removed before evaluation),
and the queued notification is never flushed. -/
theorem claim_C5_amended :
    (∀ (D : Decls Int) (n : Nat) (out : List (OutAtom Int)) (s : Store Int) (e : String)
        (s₁ : Store Int), handleCommandOutput D n out s = .err e s₁ →
        send D (n + 1) out s = .err e s₁) ∧
    (∀ (D : Decls Int) (n : Nat) (out : List (OutAtom Int)) (s s₁ : Store Int) (e : String)
        (s₂ : Store Int), handleCommandOutput D n out s = .ok () s₁ →
        commit D n s₁ = .err e s₂ → send D (n + 1) out s = .err e s₂) ∧
    (send DC5 12 [.stateUpd 0 1] c5s1 = .err "query-impl-throw" c5s2 ∧
      stateValue c5s2 0 = some 1 ∧
      queryStatus c5s2 6 = some .wip ∧
      (c5s1.lookupQ 6).map (·.upstreamSet) = some [.state 0, .state 9] ∧
      (c5s2.lookupQ 6).map (·.upstreamSet) = some [.state 0] ∧
      (c5s2.lookupS 9).map (·.downstreamSet) = some [] ∧
      c5s2.pendingEmitSet = [.stateEmit 0] ∧
      c5s2.emitted = []) := by
  refine ⟨fun D n out s e s₁ h => ?_, fun D n out s s₁ e s₂ h₁ h₂ => ?_, ?_⟩
  · show Res.andThen (handleCommandOutput D n out s) (fun _ s₁ => commit D n s₁) = _
    rw [h]; rfl
  · show Res.andThen (handleCommandOutput D n out s) (fun _ s₁ => commit D n s₁) = _
    rw [h₁]; exact h₂
  · exact ⟨by decide, by decide, by decide, by decide, by decide, by decide, by decide,
      by decide⟩

theorem claim_C5_witness :
    send DC5w 13 [.commandAct 0 0] (emptyStore Int) = .err "entity-not-created" c5w ∧
    send DC5 13 [.stateUpd 0 1] c5s1 = .err "query-impl-throw" c5s2 :=
  ⟨claim_C5_amended.1 DC5w 12 [.commandAct 0 0] (emptyStore Int) "entity-not-created" c5w
      (by decide),
   claim_C5_amended.2.1 DC5 12 [.stateUpd 0 1] c5s1 c5s1b "query-impl-throw" c5s2
      (by decide) (by decide)⟩

/-!
## C10: reads settle work-in-progress queries
-/

omit [DecidableEq V] in
theorem lookupQ_setQ_self (s : Store V) (k : Key) (f : QueryStorage V → QueryStorage V) :
    (s.setQ k f).lookupQ k = (s.lookupQ k).map f :=
  lookupA_setA_self s.queryMap k f

omit [DecidableEq V] in
theorem lookupQ_setQ_ne (s : Store V) (k j : Key) (f : QueryStorage V → QueryStorage V)
    (h : j ≠ k) : (s.setQ k f).lookupQ j = s.lookupQ j :=
  lookupA_setA_ne s.queryMap k j f h

/-- Settling through `updateWipQueryStorage` never returns normally with the
storage still `wip`: every path either found it already settled, set
`default` (short-circuit), or ends by assigning `updated`/`default` from the
recomputation result. -/
theorem updateWipQueryStorage_status (D : Decls V) (n : Nat) (qk : Key) (s s' : Store V)
    (h : updateWipQueryStorage D n qk s = .ok () s') :
    ∀ qs, s'.lookupQ qk = some qs → qs.status ≠ .wip := by
  match n with
  | 0 => simp [updateWipQueryStorage] at h
  | n + 1 =>
    rw [updateWipQueryStorage] at h
    cases hq : s.lookupQ qk with
    | none =>
      rw [hq] at h
      simp only [Res.ok.injEq] at h
      intro qs hqs
      rw [← h.2, hq] at hqs
      exact absurd hqs (by simp)
    | some qs0 =>
      rw [hq] at h
      simp only at h
      by_cases hw : qs0.status ≠ QStatus.wip
      · rw [if_pos hw] at h
        simp only [Res.ok.injEq] at h
        intro qs hqs
        rw [← h.2, hq] at hqs
        cases hqs
        exact hw
      · rw [if_neg hw] at h
        by_cases he : qs0.wipUpstreamSet.isEmpty
        · rw [if_pos he] at h
          cases hr : updateQueryStorage D n qk s with
          | ok b s₃ =>
            rw [hr] at h
            simp only [finishUpdate, Res.ok.injEq] at h
            intro qs hqs
            rw [← h.2, lookupQ_setQ_self] at hqs
            rcases Option.map_eq_some'.mp hqs with ⟨a, _, ha2⟩
            rw [← ha2]
            cases b <;> simp
          | err e s₃ => rw [hr] at h; simp [finishUpdate] at h
          | fuel => rw [hr] at h; simp [finishUpdate] at h
        · rw [if_neg he] at h
          cases hr : settleWipUpstreams D n qs0.wipUpstreamSet false s with
          | ok b s₁ =>
            rw [hr] at h
            simp only [Res.andThen] at h
            by_cases hb : b = true
            · rw [if_pos hb] at h
              cases hr2 : updateQueryStorage D n qk
                  (s₁.setQ qk fun q => { q with wipUpstreamSet := [] }) with
              | ok b2 s₃ =>
                rw [hr2] at h
                simp only [finishUpdate, Res.ok.injEq] at h
                intro qs hqs
                rw [← h.2, lookupQ_setQ_self] at hqs
                rcases Option.map_eq_some'.mp hqs with ⟨a, _, ha2⟩
                rw [← ha2]
                cases b2 <;> simp
              | err e s₃ => rw [hr2] at h; simp [finishUpdate] at h
              | fuel => rw [hr2] at h; simp [finishUpdate] at h
            · rw [if_neg hb] at h
              simp only [Res.ok.injEq] at h
              intro qs hqs
              rw [← h.2, lookupQ_setQ_self, lookupQ_setQ_self] at hqs
              rcases Option.map_eq_some'.mp hqs with ⟨a, _, ha2⟩
              rw [← ha2]
              simp
          | err e s₁ => rw [hr] at h; simp [Res.andThen] at h
          | fuel => rw [hr] at h; simp [Res.andThen] at h

/-- C10: every read of a derived query's value (`store.query` and the
tracked/untracked `get` contexts all go through `getCurrentQueryValue`)
first settles the query if its status is `wip`; after a normal return the
storage's status is not `wip` and the returned value is exactly the settled
`currentValue`. -/
theorem claim_C10_settled_read (D : Decls V) (n : Nat) (qk : Key) (s s' : Store V) (v : V)
    (h : getCurrentQueryValue D n qk s = .ok v s') :
    ∃ qs, s'.lookupQ qk = some qs ∧ qs.status ≠ .wip ∧ v = qs.currentValue := by
  match n with
  | 0 => simp [getCurrentQueryValue] at h
  | n + 1 =>
    rw [getCurrentQueryValue] at h
    cases h1 : getQueryStorage D n qk s with
    | ok u s₁ =>
      rw [h1] at h
      simp only [Res.andThen] at h
      cases h2 : updateWipQueryStorage D n qk s₁ with
      | ok u2 s₂ =>
        rw [h2] at h
        simp only at h
        cases hq : s₂.lookupQ qk with
        | none => rw [hq] at h; simp at h
        | some qs =>
          rw [hq] at h
          simp only [Res.ok.injEq] at h
          exact ⟨qs, h.2 ▸ hq, updateWipQueryStorage_status D n qk s₁ s₂ h2 qs hq,
            h.1.symm⟩
      | err e s₂ => rw [h2] at h; simp at h
      | fuel => rw [h2] at h; simp at h
    | err e s₁ => rw [h1] at h; simp [Res.andThen] at h
    | fuel => rw [h1] at h; simp [Res.andThen] at h

theorem claim_C10_witness :
    ∃ qs, c1s2.lookupQ 2 = some qs ∧ qs.status ≠ .wip ∧ (1 : Int) = qs.currentValue :=
  claim_C10_settled_read DC1 12 2 c1s1 c1s2 1 (by decide)

/-!
## C4: compare functions gate marking, recomputation and notification
-/

/-- `updateStateItem` returns before touching anything when the written
value is compare-equal to the stored one. -/
theorem updateStateItem_equal_noop (D : Decls V) (n : Nat) (k : Key) (v : V) (s : Store V)
    (ss : StateStorage V) (hl : s.lookupS k = some ss)
    (hc : D.stateCompare k ss.currentState v = true) :
    updateStateItem D (n + 1) k v s = .ok () s := by
  rw [updateStateItem]
  simp [ensureState, Store.lookupS] at hl ⊢
  rw [hl]
  simp [hc]

/-- C4: (1) a compare-equal state write leaves the store identical (zero
marks, zero queued notifications); (2) hence a whole dispatch of such a
write on a quiescent store returns it unchanged — no notification is
delivered anywhere downstream; (3) a recomputation whose new value is
compare-equal commits nothing (store untouched, nothing queued);
(4) a query is queued for notification (entering `pendingEmitSet`) only
when its compare reports inequality; and (5) `updateWipQueryStorage`'s
final step settles a non-updated recomputation to status `default`. -/
theorem claim_C4_compare_gates :
    (∀ (D : Decls V) (n : Nat) (k : Key) (v : V) (s : Store V) (ss : StateStorage V),
        s.lookupS k = some ss → D.stateCompare k ss.currentState v = true →
        updateStateItem D (n + 1) k v s = .ok () s) ∧
    (∀ (D : Decls V) (nf : Nat) (k : Key) (v : V) (s s' : Store V) (ss : StateStorage V),
        s.lookupS k = some ss → D.stateCompare k ss.currentState v = true →
        s.pendingLeafSet = [] → s.pendingClearSet = [] → s.pendingEmitSet = [] →
        send D nf [.stateUpd k v] s = .ok () s' → s' = s) ∧
    (∀ (D : Decls V) (qk : Key) (v : V) (s : Store V) (qs : QueryStorage V),
        s.lookupQ qk = some qs → D.queryCompare qk qs.currentValue v = true →
        commitQueryValue D qk v s = (false, s)) ∧
    (∀ (D : Decls V) (qk : Key) (v : V) (s s' : Store V) (qs : QueryStorage V),
        s.lookupQ qk = some qs → commitQueryValue D qk v s = (true, s') →
        D.queryCompare qk qs.currentValue v = false ∧
        s' = (s.setQ qk fun q => { q with currentValue := v }).addEmit (.queryEmit qk)) ∧
    (∀ (qk : Key) (s : Store V),
        finishUpdate qk (Res.ok false s) =
          .ok () (s.setQ qk fun q => { q with status := QStatus.default })) := by
  refine ⟨updateStateItem_equal_noop, ?_, ?_, ?_, fun qk s => rfl⟩
  · intro D nf k v s s' ss hl hc hL hC hE h
    match nf with
    | 0 => simp [send] at h
    | 1 => simp [send, handleCommandOutput, Res.andThen] at h
    | 2 => simp [send, handleCommandOutput, updateStateItem, Res.andThen] at h
    | m + 3 =>
      rw [send] at h
      rw [handleCommandOutput] at h
      rw [updateStateItem_equal_noop D m k v s ss hl hc] at h
      simp only [Res.andThen] at h
      rw [handleCommandOutput] at h
      simp only at h
      rw [commit] at h
      rw [clearPendingLeafSetIfNeeded] at h
      simp only [hL, List.isEmpty_nil, if_true] at h
      simp only [Res.andThen] at h
      rw [clearPendingStorageSetIfNeeded] at h
      simp only [hC, List.isEmpty_nil, if_true] at h
      rw [clearPendingEmitSetIfNeeded] at h
      simp only [hE, List.isEmpty_nil, if_true] at h
      simp only [Res.ok.injEq] at h
      exact h.2.symm
  · intro D qk v s qs hq hc
    simp [commitQueryValue, hq, hc]
  · intro D qk v s s' qs hq h
    rw [commitQueryValue] at h
    rw [hq] at h
    by_cases hc : D.queryCompare qk qs.currentValue v = true
    · simp [hc] at h
    · simp only [Bool.not_eq_true] at hc
      simp [hc] at h
      exact ⟨hc, h.symm⟩

/-- The storage of query 6 in `c5s1`, used to instantiate C4. -/
def c5q6 : QueryStorage Int :=
  { currentValue := 0
    upstreamSet := [.state 0, .state 9]
    downstreamSet := []
    refCount := 0
    status := .default
    wipUpstreamSet := []
    upstreamGen := 0 }

theorem claim_C4_witness :
    updateStateItem DC5 1 0 0 c5s1 = .ok () c5s1 ∧
    c5s1 = c5s1 ∧
    commitQueryValue DC5 6 0 c5s1 = (false, c5s1) ∧
    (DC5.queryCompare 6 0 5 = false ∧
      ((c5s1.setQ 6 fun q => { q with currentValue := 5 }).addEmit (.queryEmit 6)) =
        ((c5s1.setQ 6 fun q => { q with currentValue := 5 }).addEmit (.queryEmit 6))) ∧
    finishUpdate 6 (Res.ok false c5s1) =
      .ok () (c5s1.setQ 6 fun q => { q with status := QStatus.default }) :=
  ⟨claim_C4_compare_gates.1 DC5 0 0 0 c5s1 { currentState := 0, downstreamSet := [6] }
      (by decide) (by decide),
   claim_C4_compare_gates.2.1 DC5 9 0 0 c5s1 c5s1 { currentState := 0, downstreamSet := [6] }
      (by decide) (by decide) (by decide) (by decide) (by decide) (by decide),
   claim_C4_compare_gates.2.2.1 DC5 6 0 c5s1 c5q6 (by decide) (by decide),
   claim_C4_compare_gates.2.2.2.1 DC5 6 5 c5s1
      ((c5s1.setQ 6 fun q => { q with currentValue := 5 }).addEmit (.queryEmit 6))
      c5q6 (by decide) (by decide),
   claim_C4_compare_gates.2.2.2.2 6 c5s1⟩

end Remesh

namespace Remesh
variable {V : Type} [DecidableEq V]

theorem mem_addUniq_self {α : Type} [DecidableEq α] (xs : List α) (x : α) :
    x ∈ addUniq xs x := by
  by_cases h : x ∈ xs <;> simp [addUniq, h]

theorem mem_addUniq_of_mem {α : Type} [DecidableEq α] {xs : List α} {y : α} (x : α)
    (h : y ∈ xs) : y ∈ addUniq xs x := by
  by_cases hx : x ∈ xs <;> simp [addUniq, hx, h]

theorem mem_removeAll_of_ne {α : Type} [DecidableEq α] {xs : List α} {y : α} (x : α)
    (h : y ∈ xs) (hne : y ≠ x) : y ∈ removeAll xs x := by
  simp [removeAll, List.mem_filter, h, hne]

/-- Whether the node `r` currently lists `j` in its downstream set (the
downstream half of an edge). -/
def refHasDown (s : Store V) (r : NodeRef) (j : Key) : Bool :=
  match r with
  | .state k => match s.lookupS k with | some ss => j ∈ ss.downstreamSet | none => false
  | .entity k => match s.lookupE k with | some es => j ∈ es.downstreamSet | none => false
  | .query k => match s.lookupQ k with | some qs => j ∈ qs.downstreamSet | none => false

/-- The frame property of the evaluation cluster: every query storage
present before is present after; its `upstreamGen` is monotone; and if its
generation did not change, then its upstream set is unchanged (except,
when `x = some qk`, for the query whose own evaluation frame this is) and
every downstream half-edge pointing at it survives. -/
def GenPres (x : Option Key) (s s' : Store V) : Prop :=
  ∀ j qs, s.lookupQ j = some qs → ∃ qs', s'.lookupQ j = some qs' ∧
    qs.upstreamGen ≤ qs'.upstreamGen ∧
    (qs'.upstreamGen = qs.upstreamGen →
      (x ≠ some j → qs'.upstreamSet = qs.upstreamSet) ∧
      ∀ r, refHasDown s r j = true → refHasDown s' r j = true)

theorem GenPres.refl (x : Option Key) (s : Store V) : GenPres x s s :=
  fun _ qs h => ⟨qs, h, le_refl _, fun _ => ⟨fun _ => rfl, fun _ hr => hr⟩⟩

theorem GenPres.mono_of {x : Option Key} {s s' : Store V} (h : GenPres x s s')
    {j : Key} {qs : QueryStorage V} (hj : s.lookupQ j = some qs) :
    ∃ qs', s'.lookupQ j = some qs' ∧ qs.upstreamGen ≤ qs'.upstreamGen := by
  rcases h j qs hj with ⟨qs', h1, h2, _⟩
  exact ⟨qs', h1, h2⟩

theorem GenPres.trans {x : Option Key} {s s₁ s₂ : Store V}
    (h1 : GenPres x s s₁) (h2 : GenPres x s₁ s₂) : GenPres x s s₂ := by
  intro j qs hj
  rcases h1 j qs hj with ⟨qsa, ha, hma, hia⟩
  rcases h2 j qsa ha with ⟨qsb, hb, hmb, hib⟩
  refine ⟨qsb, hb, le_trans hma hmb, fun heq => ?_⟩
  have h1eq : qsa.upstreamGen = qs.upstreamGen := le_antisymm (heq ▸ hmb) hma
  have h2eq : qsb.upstreamGen = qsa.upstreamGen := h1eq.symm ▸ heq
  rcases hia h1eq with ⟨hua, hda⟩
  rcases hib h2eq with ⟨hub, hdb⟩
  exact ⟨fun hx => (hub hx).trans (hua hx), fun r hr => hdb r (hda r hr)⟩

theorem GenPres.weaken {x : Option Key} {s s' : Store V} (h : GenPres none s s') :
    GenPres x s s' := by
  intro j qs hj
  rcases h j qs hj with ⟨qs', h1, h2, h3⟩
  exact ⟨qs', h1, h2, fun heq => ⟨fun _ => (h3 heq).1 (by simp), (h3 heq).2⟩⟩

theorem lookupA_append_of_some {α : Type} {l : List (Key × α)} {j : Key} {a : α}
    (e : Key × α) (h : lookupA l j = some a) : lookupA (l ++ [e]) j = some a := by
  induction l with
  | nil => simp [lookupA] at h
  | cons p t ih =>
    by_cases hp : p.1 = j
    · simp only [lookupA, List.cons_append] at h ⊢
      rw [if_pos hp] at h ⊢
      exact h
    · simp only [lookupA, List.cons_append] at h ⊢
      rw [if_neg hp] at h ⊢
      exact ih h

/-- Mutations that leave all three storage maps untouched preserve
everything. -/
theorem GenPres_of_maps_eq {x : Option Key} {s s' : Store V}
    (hs : s'.stateMap = s.stateMap) (he : s'.entityMap = s.entityMap)
    (hq : s'.queryMap = s.queryMap) : GenPres x s s' := by
  intro j qs hj
  refine ⟨qs, ?_, le_refl _, fun _ => ⟨fun _ => rfl, fun r hr => ?_⟩⟩
  · simpa [Store.lookupQ, hq] using hj
  · cases r <;> simp_all [refHasDown, Store.lookupS, Store.lookupE, Store.lookupQ]

end Remesh

namespace Remesh
variable {V : Type} [DecidableEq V]

omit [DecidableEq V] in
theorem lookupS_setS_self (s : Store V) (k : Key) (f : StateStorage V → StateStorage V) :
    (s.setS k f).lookupS k = (s.lookupS k).map f :=
  lookupA_setA_self s.stateMap k f

omit [DecidableEq V] in
theorem lookupS_setS_ne (s : Store V) (k j : Key) (f : StateStorage V → StateStorage V)
    (h : j ≠ k) : (s.setS k f).lookupS j = s.lookupS j :=
  lookupA_setA_ne s.stateMap k j f h

omit [DecidableEq V] in
theorem lookupE_setE_self (s : Store V) (k : Key) (f : EntityStorage V → EntityStorage V) :
    (s.setE k f).lookupE k = (s.lookupE k).map f :=
  lookupA_setA_self s.entityMap k f

omit [DecidableEq V] in
theorem lookupE_setE_ne (s : Store V) (k j : Key) (f : EntityStorage V → EntityStorage V)
    (h : j ≠ k) : (s.setE k f).lookupE j = s.lookupE j :=
  lookupA_setA_ne s.entityMap k j f h

/-- A `setQ` whose function keeps the generation and the downstream set
(it may change value, status, wip set, and — only for the query itself —
the upstream set). -/
theorem GenPres_setQ (s : Store V) (k : Key) (f : QueryStorage V → QueryStorage V)
    (hg : ∀ q, (f q).upstreamGen = q.upstreamGen)
    (hd : ∀ q, (f q).downstreamSet = q.downstreamSet) :
    GenPres (some k) s (s.setQ k f) := by
  intro j qs hj
  by_cases hk : j = k
  · subst hk
    refine ⟨f qs, ?_, ?_, fun _ => ⟨fun hx => absurd rfl hx, fun r hr => ?_⟩⟩
    · rw [lookupQ_setQ_self, hj]; rfl
    · rw [hg]
    · cases r with
      | state k' => simpa [refHasDown, Store.lookupS] using hr
      | entity k' => simpa [refHasDown, Store.lookupE] using hr
      | query k' =>
        simp only [refHasDown] at hr ⊢
        by_cases hk' : k' = j
        · subst hk'
          rw [lookupQ_setQ_self, hj]
          rw [hj] at hr
          simpa [hd] using hr
        · rw [lookupQ_setQ_ne _ _ _ _ (fun hh => hk' hh)]
          exact hr
  · refine ⟨qs, ?_, le_refl _, fun _ => ⟨fun _ => rfl, fun r hr => ?_⟩⟩
    · rw [lookupQ_setQ_ne _ _ _ _ hk]; exact hj
    · cases r with
      | state k' => simpa [refHasDown, Store.lookupS] using hr
      | entity k' => simpa [refHasDown, Store.lookupE] using hr
      | query k' =>
        simp only [refHasDown] at hr ⊢
        by_cases hk' : k' = k
        · subst hk'
          rw [lookupQ_setQ_self]
          cases hq : s.lookupQ k' with
          | none => rw [hq] at hr; simp at hr
          | some u => rw [hq] at hr; simpa [hd] using hr
        · rw [lookupQ_setQ_ne _ _ _ _ hk']
          exact hr

/-- A `setQ` that also keeps the upstream set is fully neutral. -/
theorem GenPres_setQ_neutral (s : Store V) (k : Key) (f : QueryStorage V → QueryStorage V)
    (hg : ∀ q, (f q).upstreamGen = q.upstreamGen)
    (hu : ∀ q, (f q).upstreamSet = q.upstreamSet)
    (hd : ∀ q, (f q).downstreamSet = q.downstreamSet) :
    GenPres none s (s.setQ k f) := by
  intro j qs hj
  rcases GenPres_setQ s k f hg hd j qs hj with ⟨qs', h1, h2, h3⟩
  refine ⟨qs', h1, h2, fun heq => ⟨fun _ => ?_, (h3 heq).2⟩⟩
  by_cases hk : j = k
  · subst hk
    rw [lookupQ_setQ_self, hj] at h1
    cases h1
    exact hu qs
  · rw [lookupQ_setQ_ne _ _ _ _ hk, hj] at h1
    cases h1
    rfl

end Remesh

namespace Remesh
variable {V : Type} [DecidableEq V]

omit [DecidableEq V] in
theorem lookupQ_insertQ_of_some {s : Store V} {j : Key} {qs : QueryStorage V} (k : Key)
    (st : QueryStorage V) (h : s.lookupQ j = some qs) :
    (s.insertQ k st).lookupQ j = some qs :=
  lookupA_append_of_some (k, st) h

omit [DecidableEq V] in
theorem refHasDown_insertS {s : Store V} {r : NodeRef} {j : Key} (k : Key)
    (st : StateStorage V) (h : refHasDown s r j = true) :
    refHasDown (s.insertS k st) r j = true := by
  cases r with
  | state k' =>
    simp only [refHasDown, Store.lookupS, Store.insertS] at h ⊢
    cases hq : lookupA s.stateMap k' with
    | none => rw [hq] at h; simp at h
    | some ss => rw [hq] at h; rw [lookupA_append_of_some _ hq]; exact h
  | entity k' => exact h
  | query k' => exact h

omit [DecidableEq V] in
theorem refHasDown_insertE {s : Store V} {r : NodeRef} {j : Key} (k : Key)
    (st : EntityStorage V) (h : refHasDown s r j = true) :
    refHasDown (s.insertE k st) r j = true := by
  cases r with
  | state k' => exact h
  | entity k' =>
    simp only [refHasDown, Store.lookupE, Store.insertE] at h ⊢
    cases hq : lookupA s.entityMap k' with
    | none => rw [hq] at h; simp at h
    | some es => rw [hq] at h; rw [lookupA_append_of_some _ hq]; exact h
  | query k' => exact h

omit [DecidableEq V] in
theorem refHasDown_insertQ {s : Store V} {r : NodeRef} {j : Key} (k : Key)
    (st : QueryStorage V) (h : refHasDown s r j = true) :
    refHasDown (s.insertQ k st) r j = true := by
  cases r with
  | state k' => exact h
  | entity k' => exact h
  | query k' =>
    simp only [refHasDown, Store.lookupQ, Store.insertQ] at h ⊢
    cases hq : lookupA s.queryMap k' with
    | none => rw [hq] at h; simp at h
    | some u => rw [hq] at h; rw [lookupA_append_of_some _ hq]; exact h

theorem GenPres_insertS (x : Option Key) (s : Store V) (k : Key) (st : StateStorage V) :
    GenPres x s (s.insertS k st) := by
  intro j qs hj
  exact ⟨qs, hj, le_refl _, fun _ =>
    ⟨fun _ => rfl, fun r hr => refHasDown_insertS k st hr⟩⟩

theorem GenPres_insertE (x : Option Key) (s : Store V) (k : Key) (st : EntityStorage V) :
    GenPres x s (s.insertE k st) := by
  intro j qs hj
  exact ⟨qs, hj, le_refl _, fun _ =>
    ⟨fun _ => rfl, fun r hr => refHasDown_insertE k st hr⟩⟩

theorem GenPres_insertQ (x : Option Key) (s : Store V) (k : Key) (st : QueryStorage V) :
    GenPres x s (s.insertQ k st) := by
  intro j qs hj
  exact ⟨qs, lookupQ_insertQ_of_some k st hj, le_refl _, fun _ =>
    ⟨fun _ => rfl, fun r hr => refHasDown_insertQ k st hr⟩⟩

end Remesh

namespace Remesh
variable {V : Type} [DecidableEq V]

omit [DecidableEq V] in
theorem refHasDown_setS_downAdd {s : Store V} {r : NodeRef} {j : Key} (k qk : Key)
    (h : refHasDown s r j = true) :
    refHasDown (s.setS k fun ss => { ss with downstreamSet := addUniq ss.downstreamSet qk })
      r j = true := by
  cases r with
  | state k' =>
    simp only [refHasDown] at h ⊢
    by_cases hk : k' = k
    · subst hk
      rw [lookupS_setS_self]
      cases hq : s.lookupS k' with
      | none => rw [hq] at h; simp at h
      | some ss =>
        rw [hq] at h
        simp only [Option.map_some']
        simp only [decide_eq_true_eq] at h ⊢
        exact mem_addUniq_of_mem qk h
    · rw [lookupS_setS_ne _ _ _ _ hk]; exact h
  | entity k' => exact h
  | query k' => exact h

omit [DecidableEq V] in
theorem refHasDown_setE_downAdd {s : Store V} {r : NodeRef} {j : Key} (k qk : Key)
    (h : refHasDown s r j = true) :
    refHasDown (s.setE k fun es => { es with downstreamSet := addUniq es.downstreamSet qk })
      r j = true := by
  cases r with
  | state k' => exact h
  | entity k' =>
    simp only [refHasDown] at h ⊢
    by_cases hk : k' = k
    · subst hk
      rw [lookupE_setE_self]
      cases hq : s.lookupE k' with
      | none => rw [hq] at h; simp at h
      | some es =>
        rw [hq] at h
        simp only [Option.map_some']
        simp only [decide_eq_true_eq] at h ⊢
        exact mem_addUniq_of_mem qk h
    · rw [lookupE_setE_ne _ _ _ _ hk]; exact h
  | query k' => exact h

omit [DecidableEq V] in
theorem refHasDown_setQ_downAdd {s : Store V} {r : NodeRef} {j : Key} (k qk : Key)
    (h : refHasDown s r j = true) :
    refHasDown (s.setQ k fun qs => { qs with downstreamSet := addUniq qs.downstreamSet qk })
      r j = true := by
  cases r with
  | state k' => exact h
  | entity k' => exact h
  | query k' =>
    simp only [refHasDown] at h ⊢
    by_cases hk : k' = k
    · subst hk
      rw [lookupQ_setQ_self]
      cases hq : s.lookupQ k' with
      | none => rw [hq] at h; simp at h
      | some qs =>
        rw [hq] at h
        simp only [Option.map_some']
        simp only [decide_eq_true_eq] at h ⊢
        exact mem_addUniq_of_mem qk h
    · rw [lookupQ_setQ_ne _ _ _ _ hk]; exact h

/-- `addDown` only grows a downstream set: full frame preservation. -/
theorem GenPres_addDown (x : Option Key) (r : NodeRef) (qk : Key) (s : Store V) :
    GenPres x s (addDown r qk s) := by
  cases r with
  | state k =>
    intro j qs hj
    exact ⟨qs, hj, le_refl _, fun _ =>
      ⟨fun _ => rfl, fun r' hr => refHasDown_setS_downAdd k qk hr⟩⟩
  | entity k =>
    intro j qs hj
    exact ⟨qs, hj, le_refl _, fun _ =>
      ⟨fun _ => rfl, fun r' hr => refHasDown_setE_downAdd k qk hr⟩⟩
  | query k =>
    intro j qs hj
    simp only [addDown]
    by_cases hk : j = k
    · subst hk
      refine ⟨{ qs with downstreamSet := addUniq qs.downstreamSet qk }, ?_, le_refl _,
        fun _ => ⟨fun _ => rfl, fun r' hr => refHasDown_setQ_downAdd j qk hr⟩⟩
      rw [lookupQ_setQ_self, hj]
      rfl
    · refine ⟨qs, ?_, le_refl _,
        fun _ => ⟨fun _ => rfl, fun r' hr => refHasDown_setQ_downAdd k qk hr⟩⟩
      rw [lookupQ_setQ_ne _ _ _ _ hk]
      exact hj

/-- `addUp` changes only the upstream set of `qk` itself. -/
theorem GenPres_addUp (qk : Key) (r : NodeRef) (s : Store V) :
    GenPres (some qk) s (addUp qk r s) :=
  GenPres_setQ s qk (fun qs => { qs with upstreamSet := addUniq qs.upstreamSet r })
    (fun _ => rfl) (fun _ => rfl)

/-- `addEdge`: the tracked context's two simultaneous half-edge writes. -/
theorem GenPres_addEdge (qk : Key) (r : NodeRef) (s : Store V) :
    GenPres (some qk) s (addEdge qk r s) :=
  (GenPres_addUp qk r s).trans (GenPres_addDown (some qk) r qk (addUp qk r s))

theorem GenPres_ensureState (x : Option Key) (D : Decls V) (k : Key) (s : Store V) :
    GenPres x s (ensureState D k s).2 := by
  unfold ensureState
  cases hq : s.lookupS k with
  | some ss => exact GenPres.refl x s
  | none => exact GenPres_insertS x s k _

theorem GenPres_ensureEntity (x : Option Key) (D : Decls V) (k : Key) (s : Store V) :
    GenPres x s (ensureEntity D k s).2 := by
  unfold ensureEntity
  cases hq : s.lookupE k with
  | some es => exact GenPres.refl x s
  | none => exact GenPres_insertE x s k _

theorem GenPres_addEmitFields (x : Option Key) (s : Store V)
    (a : List (EmitItem V)) (b c : List Key) (d : List (Notif V)) :
    GenPres x s
      { s with
        pendingEmitSet := a
        pendingLeafSet := b
        pendingClearSet := c
        emitted := d } :=
  GenPres_of_maps_eq rfl rfl rfl

end Remesh

namespace Remesh
variable {V : Type} [DecidableEq V]

omit [DecidableEq V] in
theorem refHasDown_setS_downRemove {s : Store V} {r : NodeRef} {j : Key} (k qk : Key)
    (hne : j ≠ qk) (h : refHasDown s r j = true) :
    refHasDown (s.setS k fun ss => { ss with downstreamSet := removeAll ss.downstreamSet qk })
      r j = true := by
  cases r with
  | state k' =>
    simp only [refHasDown] at h ⊢
    by_cases hk : k' = k
    · subst hk
      rw [lookupS_setS_self]
      cases hq : s.lookupS k' with
      | none => rw [hq] at h; simp at h
      | some ss =>
        rw [hq] at h
        simp only [Option.map_some', decide_eq_true_eq] at h ⊢
        exact mem_removeAll_of_ne qk h hne
    · rw [lookupS_setS_ne _ _ _ _ hk]; exact h
  | entity k' => exact h
  | query k' => exact h

omit [DecidableEq V] in
theorem refHasDown_setE_downRemove {s : Store V} {r : NodeRef} {j : Key} (k qk : Key)
    (hne : j ≠ qk) (h : refHasDown s r j = true) :
    refHasDown (s.setE k fun es => { es with downstreamSet := removeAll es.downstreamSet qk })
      r j = true := by
  cases r with
  | state k' => exact h
  | entity k' =>
    simp only [refHasDown] at h ⊢
    by_cases hk : k' = k
    · subst hk
      rw [lookupE_setE_self]
      cases hq : s.lookupE k' with
      | none => rw [hq] at h; simp at h
      | some es =>
        rw [hq] at h
        simp only [Option.map_some', decide_eq_true_eq] at h ⊢
        exact mem_removeAll_of_ne qk h hne
    · rw [lookupE_setE_ne _ _ _ _ hk]; exact h
  | query k' => exact h

omit [DecidableEq V] in
theorem refHasDown_setQ_downRemove {s : Store V} {r : NodeRef} {j : Key} (k qk : Key)
    (hne : j ≠ qk) (h : refHasDown s r j = true) :
    refHasDown (s.setQ k fun qs => { qs with downstreamSet := removeAll qs.downstreamSet qk })
      r j = true := by
  cases r with
  | state k' => exact h
  | entity k' => exact h
  | query k' =>
    simp only [refHasDown] at h ⊢
    by_cases hk : k' = k
    · subst hk
      rw [lookupQ_setQ_self]
      cases hq : s.lookupQ k' with
      | none => rw [hq] at h; simp at h
      | some qs =>
        rw [hq] at h
        simp only [Option.map_some', decide_eq_true_eq] at h ⊢
        exact mem_removeAll_of_ne qk h hne
    · rw [lookupQ_setQ_ne _ _ _ _ hk]; exact h

omit [DecidableEq V] in
theorem refHasDown_addClear {s : Store V} {r : NodeRef} {j : Key} (k : Key)
    (h : refHasDown s r j = true) : refHasDown (s.addClear k) r j = true := by
  cases r <;> exact h

/-- One detach step keeps every query's generation and upstream set, and
every downstream half-edge of keys other than the detached query. -/
theorem detachOne_frame (qk : Key) (r : NodeRef) (s : Store V) :
    (∀ j qs, s.lookupQ j = some qs → ∃ qs', (detachOne qk r s).lookupQ j = some qs' ∧
       qs'.upstreamGen = qs.upstreamGen ∧ qs'.upstreamSet = qs.upstreamSet) ∧
    (∀ r' j, j ≠ qk → refHasDown s r' j = true →
       refHasDown (detachOne qk r s) r' j = true) := by
  cases r with
  | state k =>
    exact ⟨fun j qs hj => ⟨qs, hj, rfl, rfl⟩,
      fun r' j hne hr => refHasDown_setS_downRemove k qk hne hr⟩
  | entity k =>
    exact ⟨fun j qs hj => ⟨qs, hj, rfl, rfl⟩,
      fun r' j hne hr => refHasDown_setE_downRemove k qk hne hr⟩
  | query uk =>
    have hsame : ∀ j2, (detachOne qk (NodeRef.query uk) s).lookupQ j2 =
        (s.setQ uk fun us =>
          { us with downstreamSet := removeAll us.downstreamSet qk }).lookupQ j2 := by
      intro j2
      simp only [detachOne]
      cases hq2 : (s.setQ uk fun us =>
          { us with downstreamSet := removeAll us.downstreamSet qk }).lookupQ uk with
      | none => rfl
      | some us =>
        by_cases he : us.downstreamSet.isEmpty <;>
          simp only [he, if_true, if_false, Bool.false_eq_true] <;> rfl
    have hdown : ∀ r' j2, j2 ≠ qk → refHasDown s r' j2 = true →
        refHasDown (detachOne qk (NodeRef.query uk) s) r' j2 = true := by
      intro r' j2 hne hr
      simp only [detachOne]
      cases hq2 : (s.setQ uk fun us =>
          { us with downstreamSet := removeAll us.downstreamSet qk }).lookupQ uk with
      | none => exact refHasDown_setQ_downRemove uk qk hne hr
      | some us =>
        by_cases he : us.downstreamSet.isEmpty <;>
          simp only [he, if_true, if_false, Bool.false_eq_true]
        · exact refHasDown_addClear uk (refHasDown_setQ_downRemove uk qk hne hr)
        · exact refHasDown_setQ_downRemove uk qk hne hr
    constructor
    · intro j qs hj
      rw [hsame j]
      by_cases hk : j = uk
      · subst hk
        rw [lookupQ_setQ_self, hj]
        exact ⟨_, rfl, rfl, rfl⟩
      · rw [lookupQ_setQ_ne _ _ _ _ hk]
        exact ⟨qs, hj, rfl, rfl⟩
    · exact hdown

/-- The whole first loop of `updateQueryStorage` satisfies the same frame. -/
theorem detachOldUpstreams_frame (qk : Key) (refs : List NodeRef) (s : Store V) :
    (∀ j qs, s.lookupQ j = some qs →
       ∃ qs', (detachOldUpstreams qk refs s).lookupQ j = some qs' ∧
         qs'.upstreamGen = qs.upstreamGen ∧ qs'.upstreamSet = qs.upstreamSet) ∧
    (∀ r' j, j ≠ qk → refHasDown s r' j = true →
       refHasDown (detachOldUpstreams qk refs s) r' j = true) := by
  induction refs generalizing s with
  | nil => exact ⟨fun j qs hj => ⟨qs, hj, rfl, rfl⟩, fun _ _ _ hr => hr⟩
  | cons r rest ih =>
    have hstep : detachOldUpstreams qk (r :: rest) s =
        detachOldUpstreams qk rest (detachOne qk r s) := rfl
    rw [hstep]
    constructor
    · intro j qs hj
      rcases (detachOne_frame qk r s).1 j qs hj with ⟨qs1, h1, h2, h3⟩
      rcases (ih (detachOne qk r s)).1 j qs1 h1 with ⟨qs2, h4, h5, h6⟩
      exact ⟨qs2, h4, h5.trans h2, h6.trans h3⟩
    · intro r' j hne hr
      exact (ih (detachOne qk r s)).2 r' j hne
        ((detachOne_frame qk r s).2 r' j hne hr)

end Remesh

namespace Remesh
variable {V : Type} [DecidableEq V]

/-- The store observable in a result (normal or exceptional). -/
def resStore {α : Type} : Res V α → Option (Store V)
  | .ok _ s => some s
  | .err _ s => some s
  | .fuel => none

/-- The query whose upstream set a tracked evaluation may grow: none for
the creation context (which never writes the under-construction upstream
set through the map), the evaluated query for the recomputation context. -/
def modeExc (gen? : Option Nat) (qk : Key) : Option Key :=
  match gen? with
  | none => none
  | some _ => some qk

theorem GenPres.strengthen_of_bump {qk : Key} {s s' : Store V}
    (h : GenPres (some qk) s s')
    (hb : ∀ qs qs', s.lookupQ qk = some qs → s'.lookupQ qk = some qs' →
      qs'.upstreamGen ≠ qs.upstreamGen) : GenPres none s s' := by
  intro j qs hj
  rcases h j qs hj with ⟨qs', h1, h2, h3⟩
  refine ⟨qs', h1, h2, fun heq => ⟨fun _ => ?_, (h3 heq).2⟩⟩
  by_cases hk : j = qk
  · subst hk
    exact absurd heq (hb qs qs' hj h1)
  · exact (h3 heq).1 (fun hh => hk (Option.some.inj hh).symm)

theorem GenPres_getCurrentEntity (x : Option Key) (D : Decls V) (k : Key) (s : Store V)
    (s' : Store V) (h : resStore (getCurrentEntity D k s) = some s') : GenPres x s s' := by
  unfold getCurrentEntity at h
  rcases hes : ensureEntity D k s with ⟨es, s₁⟩
  rw [hes] at h
  have hp : GenPres x s s₁ := by
    have := GenPres_ensureEntity x D k s
    rw [hes] at this
    exact this
  replace h : resStore (match es.currentEntity with
    | none => Res.err "entity-not-created" s₁
    | some v => Res.ok v s₁) = some s' := h
  cases hc : es.currentEntity with
  | none => rw [hc] at h; simp [resStore] at h; exact h ▸ hp
  | some v => rw [hc] at h; simp [resStore] at h; exact h ▸ hp

theorem GenPres_commitQueryValue (D : Decls V) (qk : Key) (v : V) (s : Store V) :
    GenPres none s (commitQueryValue D qk v s).2 := by
  unfold commitQueryValue
  cases hq : s.lookupQ qk with
  | none => exact GenPres.refl none s
  | some qs =>
    by_cases hc : D.queryCompare qk qs.currentValue v
    · simp only [hc, if_true]
      exact GenPres.refl none s
    · simp only [hc, if_false, Bool.false_eq_true]
      have h1 := GenPres_setQ_neutral s qk (fun q => { q with currentValue := v })
        (fun _ => rfl) (fun _ => rfl) (fun _ => rfl)
      exact h1.trans (GenPres_of_maps_eq rfl rfl rfl)

end Remesh

namespace Remesh
variable {V : Type} [DecidableEq V]


omit [DecidableEq V] in
theorem refHasDown_setQ_keepDown {s : Store V} {r : NodeRef} {j : Key} (k : Key)
    (f : QueryStorage V → QueryStorage V) (hd : ∀ q, (f q).downstreamSet = q.downstreamSet)
    (h : refHasDown s r j = true) : refHasDown (s.setQ k f) r j = true := by
  cases r with
  | state k' => exact h
  | entity k' => exact h
  | query k' =>
    simp only [refHasDown] at h ⊢
    by_cases hk : k' = k
    · subst hk
      rw [lookupQ_setQ_self]
      cases hq : s.lookupQ k' with
      | none => rw [hq] at h; simp at h
      | some u =>
        rw [hq] at h
        simp only [Option.map_some']
        rw [hd]
        exact h
    · rw [lookupQ_setQ_ne _ _ _ _ hk]
      exact h

theorem cluster_genpres (D : Decls V) : ∀ n : Nat,
    (∀ qk s s', resStore (getQueryStorage D n qk s) = some s' → GenPres none s s') ∧
    (∀ qk s s', resStore (createQueryStorage D n qk s) = some s' → GenPres none s s') ∧
    (∀ gen? qk t s s', resStore (evalQueryImpl D n gen? qk t s) = some s' →
       GenPres (modeExc gen? qk) s s') ∧
    (∀ qk s s', resStore (getCurrentQueryValue D n qk s) = some s' → GenPres none s s') ∧
    (∀ qk s s', resStore (updateWipQueryStorage D n qk s) = some s' → GenPres none s s') ∧
    (∀ refs acc s s', resStore (settleWipUpstreams D n refs acc s) = some s' →
       GenPres none s s') ∧
    (∀ qk s s', resStore (updateQueryStorage D n qk s) = some s' → GenPres none s s') := by
  intro n
  induction n with
  | zero =>
    refine ⟨?_, ?_, ?_, ?_, ?_, ?_, ?_⟩ <;> intros <;>
      simp [getQueryStorage, createQueryStorage, evalQueryImpl, getCurrentQueryValue,
        updateWipQueryStorage, settleWipUpstreams, updateQueryStorage, resStore] at *
  | succ n ih =>
    obtain ⟨ihG, ihC, ihE, ihV, ihW, ihS, ihU⟩ := ih
    refine ⟨?_, ?_, ?_, ?_, ?_, ?_, ?_⟩
    · -- getQueryStorage
      intro qk s s' h
      rw [getQueryStorage] at h
      cases hq : s.lookupQ qk with
      | some qs =>
        rw [hq] at h
        simp [resStore] at h
        exact h ▸ GenPres.refl none s
      | none =>
        rw [hq] at h
        exact ihC qk s s' h
    · -- createQueryStorage
      intro qk s s' h
      rw [createQueryStorage] at h
      cases he : evalQueryImpl D n none qk (D.queryImpl qk) s with
      | ok p s₁ =>
        rcases p with ⟨v, reads⟩
        rw [he] at h
        simp only [Res.andThen, resStore, Option.some.injEq] at h
        have h1 : GenPres none s s₁ := ihE none qk _ s s₁ (by rw [he]; rfl)
        exact h ▸ h1.trans (GenPres_insertQ none s₁ qk _)
      | err e s₁ =>
        rw [he] at h
        simp only [Res.andThen, resStore, Option.some.injEq] at h
        exact h ▸ ihE none qk _ s s₁ (by rw [he]; rfl)
      | fuel =>
        rw [he] at h
        simp [Res.andThen, resStore] at h
    · -- evalQueryImpl
      intro gen? qk t s s' h
      cases t with
      | ret v =>
        simp only [evalQueryImpl, resStore, Option.some.injEq] at h
        exact h ▸ GenPres.refl _ s
      | throwErr =>
        simp only [evalQueryImpl, resStore, Option.some.injEq] at h
        exact h ▸ GenPres.refl _ s
      | readState k cont =>
        simp only [evalQueryImpl] at h
        rcases hes : ensureState D k s with ⟨ss, s₁⟩
        rw [hes] at h
        simp only at h
        have hp1 : GenPres (modeExc gen? qk) s s₁ := by
          have hh := GenPres_ensureState (modeExc gen? qk) D k s
          rw [hes] at hh
          exact hh
        have hnext : ∀ (s₂ : Store V), GenPres (modeExc gen? qk) s₁ s₂ →
            resStore (Res.andThen (evalQueryImpl D n gen? qk (cont ss.currentState) s₂)
              fun p s₃ => Res.ok (p.1, NodeRef.state k :: p.2) s₃) = some s' →
            GenPres (modeExc gen? qk) s s' := by
          intro s₂ hp2 hres
          cases hrec : evalQueryImpl D n gen? qk (cont ss.currentState) s₂ with
          | ok p s₃ =>
            rw [hrec] at hres
            simp only [Res.andThen, resStore, Option.some.injEq] at hres
            exact hres ▸ (hp1.trans hp2).trans (ihE gen? qk _ s₂ s₃ (by rw [hrec]; rfl))
          | err e s₃ =>
            rw [hrec] at hres
            simp only [Res.andThen, resStore, Option.some.injEq] at hres
            exact hres ▸ (hp1.trans hp2).trans (ihE gen? qk _ s₂ s₃ (by rw [hrec]; rfl))
          | fuel => rw [hrec] at hres; simp [Res.andThen, resStore] at hres
        cases gen? with
        | none =>
          simp only at h
          exact hnext (addDown (NodeRef.state k) qk s₁)
            (GenPres_addDown none (NodeRef.state k) qk s₁) (by
              convert h using 2)
        | some g =>
          simp only at h
          by_cases hg : trackGuard (some g) qk s₁
          · rw [if_pos hg] at h
            exact hnext (addEdge qk (NodeRef.state k) s₁)
              (GenPres_addEdge qk (NodeRef.state k) s₁) (by convert h using 2)
          · rw [if_neg hg] at h
            exact hnext s₁ (GenPres.refl _ s₁) (by convert h using 2)
      | readEntity k cont =>
        simp only [evalQueryImpl] at h
        rcases hes : ensureEntity D k s with ⟨es, s₁⟩
        rw [hes] at h
        simp only at h
        have hp1 : GenPres (modeExc gen? qk) s s₁ := by
          have hh := GenPres_ensureEntity (modeExc gen? qk) D k s
          rw [hes] at hh
          exact hh
        have hnext : ∀ (s₂ : Store V), GenPres (modeExc gen? qk) s₁ s₂ →
            resStore (Res.andThen (getCurrentEntity D k s₂) fun v s₃ =>
              Res.andThen (evalQueryImpl D n gen? qk (cont v) s₃) fun p s₄ =>
                Res.ok (p.1, NodeRef.entity k :: p.2) s₄) = some s' →
            GenPres (modeExc gen? qk) s s' := by
          intro s₂ hp2 hres
          cases hge : getCurrentEntity D k s₂ with
          | ok v s₃ =>
            rw [hge] at hres
            simp only [Res.andThen] at hres
            have hp3 : GenPres (modeExc gen? qk) s₂ s₃ :=
              GenPres_getCurrentEntity _ D k s₂ s₃ (by rw [hge]; rfl)
            cases hrec : evalQueryImpl D n gen? qk (cont v) s₃ with
            | ok p s₄ =>
              rw [hrec] at hres
              simp only [Res.andThen, resStore, Option.some.injEq] at hres
              exact hres ▸ (((hp1.trans hp2).trans hp3).trans
                (ihE gen? qk _ s₃ s₄ (by rw [hrec]; rfl)))
            | err e s₄ =>
              rw [hrec] at hres
              simp only [Res.andThen, resStore, Option.some.injEq] at hres
              exact hres ▸ (((hp1.trans hp2).trans hp3).trans
                (ihE gen? qk _ s₃ s₄ (by rw [hrec]; rfl)))
            | fuel => rw [hrec] at hres; simp [Res.andThen, resStore] at hres
          | err e s₃ =>
            rw [hge] at hres
            simp only [Res.andThen, resStore, Option.some.injEq] at hres
            have hp3 : GenPres (modeExc gen? qk) s₂ s₃ :=
              GenPres_getCurrentEntity _ D k s₂ s₃ (by rw [hge]; rfl)
            exact hres ▸ (hp1.trans hp2).trans hp3
          | fuel => rw [hge] at hres; simp [Res.andThen, resStore] at hres
        cases gen? with
        | none =>
          simp only at h
          exact hnext s₁ (GenPres.refl _ s₁) (by convert h using 2)
        | some g =>
          simp only at h
          by_cases hg : trackGuard (some g) qk s₁
          · rw [if_pos hg] at h
            exact hnext (addEdge qk (NodeRef.entity k) s₁)
              (GenPres_addEdge qk (NodeRef.entity k) s₁) (by convert h using 2)
          · rw [if_neg hg] at h
            exact hnext s₁ (GenPres.refl _ s₁) (by convert h using 2)
      | readQuery k cont =>
        simp only [evalQueryImpl] at h
        cases hgq : getQueryStorage D n k s with
        | ok u s₁ =>
          rw [hgq] at h
          simp only [Res.andThen] at h
          have hp1 : GenPres (modeExc gen? qk) s s₁ :=
            (ihG k s s₁ (by rw [hgq]; rfl)).weaken
          have hnext : ∀ (s₂ : Store V), GenPres (modeExc gen? qk) s₁ s₂ →
              resStore (Res.andThen (getCurrentQueryValue D n k s₂) fun v s₃ =>
                Res.andThen (evalQueryImpl D n gen? qk (cont v) s₃) fun p s₄ =>
                  Res.ok (p.1, NodeRef.query k :: p.2) s₄) = some s' →
              GenPres (modeExc gen? qk) s s' := by
            intro s₂ hp2 hres
            cases hgv : getCurrentQueryValue D n k s₂ with
            | ok v s₃ =>
              rw [hgv] at hres
              simp only [Res.andThen] at hres
              have hp3 : GenPres (modeExc gen? qk) s₂ s₃ :=
                (ihV k s₂ s₃ (by rw [hgv]; rfl)).weaken
              cases hrec : evalQueryImpl D n gen? qk (cont v) s₃ with
              | ok p s₄ =>
                rw [hrec] at hres
                simp only [Res.andThen, resStore, Option.some.injEq] at hres
                exact hres ▸ (((hp1.trans hp2).trans hp3).trans
                  (ihE gen? qk _ s₃ s₄ (by rw [hrec]; rfl)))
              | err e s₄ =>
                rw [hrec] at hres
                simp only [Res.andThen, resStore, Option.some.injEq] at hres
                exact hres ▸ (((hp1.trans hp2).trans hp3).trans
                  (ihE gen? qk _ s₃ s₄ (by rw [hrec]; rfl)))
              | fuel => rw [hrec] at hres; simp [Res.andThen, resStore] at hres
            | err e s₃ =>
              rw [hgv] at hres
              simp only [Res.andThen, resStore, Option.some.injEq] at hres
              have hp3 : GenPres (modeExc gen? qk) s₂ s₃ :=
                (ihV k s₂ s₃ (by rw [hgv]; rfl)).weaken
              exact hres ▸ (hp1.trans hp2).trans hp3
            | fuel => rw [hgv] at hres; simp [Res.andThen, resStore] at hres
          cases gen? with
          | none =>
            simp only at h
            exact hnext (addDown (NodeRef.query k) qk s₁)
              (GenPres_addDown none (NodeRef.query k) qk s₁) (by convert h using 2)
          | some g =>
            simp only at h
            by_cases hg : trackGuard (some g) qk s₁
            · rw [if_pos hg] at h
              exact hnext (addEdge qk (NodeRef.query k) s₁)
                (GenPres_addEdge qk (NodeRef.query k) s₁) (by convert h using 2)
            · rw [if_neg hg] at h
              exact hnext s₁ (GenPres.refl _ s₁) (by convert h using 2)
        | err e s₁ =>
          rw [hgq] at h
          simp only [Res.andThen, resStore, Option.some.injEq] at h
          exact h ▸ (ihG k s s₁ (by rw [hgq]; rfl)).weaken
        | fuel => rw [hgq] at h; simp [Res.andThen, resStore] at h
    · -- getCurrentQueryValue
      intro qk s s' h
      rw [getCurrentQueryValue] at h
      cases h1 : getQueryStorage D n qk s with
      | ok u s₁ =>
        rw [h1] at h
        simp only [Res.andThen] at h
        have hp1 : GenPres none s s₁ := ihG qk s s₁ (by rw [h1]; rfl)
        cases h2 : updateWipQueryStorage D n qk s₁ with
        | ok u2 s₂ =>
          rw [h2] at h
          simp only at h
          have hp2 : GenPres none s₁ s₂ := ihW qk s₁ s₂ (by rw [h2]; rfl)
          cases hq : s₂.lookupQ qk with
          | some qs =>
            rw [hq] at h
            simp only [resStore, Option.some.injEq] at h
            exact h ▸ hp1.trans hp2
          | none =>
            rw [hq] at h
            simp only [resStore, Option.some.injEq] at h
            exact h ▸ hp1.trans hp2
        | err e s₂ =>
          rw [h2] at h
          simp only [resStore, Option.some.injEq] at h
          exact h ▸ hp1.trans (ihW qk s₁ s₂ (by rw [h2]; rfl))
        | fuel => rw [h2] at h; simp [resStore] at h
      | err e s₁ =>
        rw [h1] at h
        simp only [Res.andThen, resStore, Option.some.injEq] at h
        exact h ▸ ihG qk s s₁ (by rw [h1]; rfl)
      | fuel => rw [h1] at h; simp [Res.andThen, resStore] at h
    · -- updateWipQueryStorage
      intro qk s s' h
      rw [updateWipQueryStorage] at h
      cases hq : s.lookupQ qk with
      | none =>
        rw [hq] at h
        simp only [resStore, Option.some.injEq] at h
        exact h ▸ GenPres.refl none s
      | some qs =>
        rw [hq] at h
        simp only at h
        by_cases hw : qs.status ≠ QStatus.wip
        · rw [if_pos hw] at h
          simp only [resStore, Option.some.injEq] at h
          exact h ▸ GenPres.refl none s
        · rw [if_neg hw] at h
          have hfin : ∀ (s₀ : Store V), GenPres none s s₀ →
              resStore (finishUpdate qk (updateQueryStorage D n qk s₀)) = some s' →
              GenPres none s s' := by
            intro s₀ hp0 hfin
            cases hu : updateQueryStorage D n qk s₀ with
            | ok b s₃ =>
              rw [hu] at hfin
              simp only [finishUpdate, resStore, Option.some.injEq] at hfin
              have hp3 : GenPres none s₀ s₃ := ihU qk s₀ s₃ (by rw [hu]; rfl)
              have hp4 := GenPres_setQ_neutral s₃ qk
                (fun q => { q with status := if b then QStatus.updated else QStatus.default })
                (fun _ => rfl) (fun _ => rfl) (fun _ => rfl)
              exact hfin ▸ (hp0.trans hp3).trans hp4
            | err e s₃ =>
              rw [hu] at hfin
              simp only [finishUpdate, resStore, Option.some.injEq] at hfin
              exact hfin ▸ hp0.trans (ihU qk s₀ s₃ (by rw [hu]; rfl))
            | fuel => rw [hu] at hfin; simp [finishUpdate, resStore] at hfin
          by_cases he : qs.wipUpstreamSet.isEmpty
          · rw [if_pos he] at h
            exact hfin s (GenPres.refl none s) h
          · rw [if_neg he] at h
            cases hs : settleWipUpstreams D n qs.wipUpstreamSet false s with
            | ok b s₁ =>
              rw [hs] at h
              simp only [Res.andThen] at h
              have hp1 : GenPres none s s₁ := ihS _ _ s s₁ (by rw [hs]; rfl)
              have hp2 := GenPres_setQ_neutral s₁ qk
                (fun q => { q with wipUpstreamSet := ([] : List NodeRef) })
                (fun _ => rfl) (fun _ => rfl) (fun _ => rfl)
              by_cases hb : b = true
              · rw [if_pos hb] at h
                exact hfin _ (hp1.trans hp2) h
              · rw [if_neg hb] at h
                simp only [resStore, Option.some.injEq] at h
                have hp3 := GenPres_setQ_neutral
                  (s₁.setQ qk fun q => { q with wipUpstreamSet := ([] : List NodeRef) }) qk
                  (fun q => { q with status := QStatus.default })
                  (fun _ => rfl) (fun _ => rfl) (fun _ => rfl)
                exact h ▸ (hp1.trans hp2).trans hp3
            | err e s₁ =>
              rw [hs] at h
              simp only [Res.andThen, resStore, Option.some.injEq] at h
              exact h ▸ ihS _ _ s s₁ (by rw [hs]; rfl)
            | fuel => rw [hs] at h; simp [Res.andThen, resStore] at h
    · -- settleWipUpstreams
      intro refs acc s s' h
      match refs with
      | [] =>
        simp only [settleWipUpstreams] at h
        simp only [resStore, Option.some.injEq] at h
        exact h ▸ GenPres.refl none s
      | r :: rest =>
        simp only [settleWipUpstreams] at h
        cases r with
        | state k => exact ihS rest true s s' h
        | entity k => exact ihS rest acc s s' h
        | query uk =>
          simp only at h
          cases hq : s.lookupQ uk with
          | none =>
            rw [hq] at h
            exact ihS rest acc s s' h
          | some us =>
            rw [hq] at h
            simp only at h
            by_cases hw : us.status = QStatus.wip
            · rw [if_pos hw] at h
              cases hu : updateWipQueryStorage D n uk s with
              | ok u s₁ =>
                rw [hu] at h
                simp only [Res.andThen] at h
                have hp1 : GenPres none s s₁ := ihW uk s s₁ (by rw [hu]; rfl)
                cases hq2 : s₁.lookupQ uk with
                | some us₁ =>
                  rw [hq2] at h
                  exact hp1.trans (ihS rest _ s₁ s' h)
                | none =>
                  rw [hq2] at h
                  exact hp1.trans (ihS rest acc s₁ s' h)
              | err e s₁ =>
                rw [hu] at h
                simp only [Res.andThen, resStore, Option.some.injEq] at h
                exact h ▸ ihW uk s s₁ (by rw [hu]; rfl)
              | fuel => rw [hu] at h; simp [Res.andThen, resStore] at h
            · rw [if_neg hw] at h
              simp only [Res.andThen] at h
              cases hq2 : s.lookupQ uk with
              | some us₁ =>
                rw [hq2] at h
                exact ihS rest _ s s' h
              | none =>
                rw [hq2] at h
                exact ihS rest acc s s' h
    · -- updateQueryStorage
      intro qk s s' h
      simp only [updateQueryStorage] at h
      cases hq : s.lookupQ qk with
      | none =>
        rw [hq] at h
        simp only [resStore, Option.some.injEq] at h
        exact h ▸ GenPres.refl none s
      | some qs =>
        rw [hq] at h
        simp only at h
        have hpre : GenPres none s ((detachOldUpstreams qk qs.upstreamSet s).setQ qk
            fun q => { q with upstreamSet := [], upstreamGen := qs.upstreamGen + 1 }) := by
          intro j qs0 hj0
          rcases (detachOldUpstreams_frame qk qs.upstreamSet s).1 j qs0 hj0 with ⟨qs1, h1, h2, h3⟩
          by_cases hk : j = qk
          · subst hk
            have hqs0 : qs0 = qs := by rw [hj0] at hq; exact Option.some.inj hq
            subst hqs0
            refine ⟨{ qs1 with upstreamSet := [], upstreamGen := qs0.upstreamGen + 1 }, ?_, Nat.le_succ _, fun heq => ?_⟩
            · rw [lookupQ_setQ_self, h1]
              rfl
            · exact absurd heq (Nat.succ_ne_self _)
          · refine ⟨qs1, ?_, le_of_eq h2.symm, fun heq => ⟨fun _ => h3, fun r hr => ?_⟩⟩
            · rw [lookupQ_setQ_ne _ _ _ _ hk]
              exact h1
            · exact refHasDown_setQ_keepDown qk _ (fun _ => rfl)
                ((detachOldUpstreams_frame qk qs.upstreamSet s).2 r j hk hr)
        obtain ⟨qsd, hld, hgd, hud⟩ := (detachOldUpstreams_frame qk qs.upstreamSet s).1 qk qs hq
        have hgen2 : ((detachOldUpstreams qk qs.upstreamSet s).setQ qk fun q => { q with upstreamSet := [], upstreamGen := qs.upstreamGen + 1 }).lookupQ qk = some { qsd with upstreamSet := [], upstreamGen := qs.upstreamGen + 1 } := by
          rw [lookupQ_setQ_self, hld]
          rfl
        cases he : evalQueryImpl D n (some (qs.upstreamGen + 1)) qk (D.queryImpl qk) ((detachOldUpstreams qk qs.upstreamSet s).setQ qk fun q => { q with upstreamSet := [], upstreamGen := qs.upstreamGen + 1 }) with
        | ok p s₃ =>
          rcases p with ⟨v, reads⟩
          rw [he] at h
          simp only [Res.andThen] at h
          rcases hcv : commitQueryValue D qk v s₃ with ⟨b, s₄⟩
          rw [hcv] at h
          simp only [resStore, Option.some.injEq] at h
          have hp3 : GenPres (some qk) _ s₃ := ihE (some (qs.upstreamGen + 1)) qk _ _ s₃
            (by rw [he]; rfl)
          have hp4 : GenPres none s₃ s₄ := by
            have hcp := GenPres_commitQueryValue D qk v s₃
            rw [hcv] at hcp
            exact hcp
          have hall : GenPres (some qk) s s' :=
            h ▸ (hpre.weaken.trans hp3).trans hp4.weaken
          refine hall.strengthen_of_bump ?_
          intro qsa qsb hja hjb
          have hqsa : qsa = qs := by rw [hja] at hq; exact Option.some.inj hq
          rcases hp3.mono_of hgen2 with ⟨qs3, hl3, hm3⟩
          rcases hp4.mono_of hl3 with ⟨qs4, hl4, hm4⟩
          have hqsb : qsb = qs4 := by
            rw [← h, hl4] at hjb
            exact (Option.some.inj hjb).symm
          subst hqsa hqsb
          simp only at hm3
          omega
        | err e s₃ =>
          rw [he] at h
          simp only [Res.andThen, resStore, Option.some.injEq] at h
          have hp3 : GenPres (some qk) _ s₃ := ihE (some (qs.upstreamGen + 1)) qk _ _ s₃
            (by rw [he]; rfl)
          have hall : GenPres (some qk) s s' := h ▸ hpre.weaken.trans hp3
          refine hall.strengthen_of_bump ?_
          intro qsa qsb hja hjb
          have hqsa : qsa = qs := by rw [hja] at hq; exact Option.some.inj hq
          rcases hp3.mono_of hgen2 with ⟨qs3, hl3, hm3⟩
          have hqsb : qsb = qs3 := by
            rw [← h, hl3] at hjb
            exact (Option.some.inj hjb).symm
          subst hqsa hqsb
          simp only at hm3
          omega
        | fuel =>
          rw [he] at h
          simp [Res.andThen, resStore] at h

end Remesh

namespace Remesh
variable {V : Type} [DecidableEq V]

/-- Whether the node `r` has a storage registered in the store. -/
def refExists (s : Store V) (r : NodeRef) : Bool :=
  match r with
  | .state k => (s.lookupS k).isSome
  | .entity k => (s.lookupE k).isSome
  | .query k => (s.lookupQ k).isSome

omit [DecidableEq V] in
theorem trackGuard_eq_true {s : Store V} {qk : Key} {qs : QueryStorage V} {g : Nat}
    (hj : s.lookupQ qk = some qs) (hg : qs.upstreamGen = g) :
    trackGuard (some g) qk s = true := by
  simp [trackGuard, hj, hg]

theorem lookupQ_addEdge_self {s : Store V} {qk : Key} {qs : QueryStorage V} (r : NodeRef)
    (hj : s.lookupQ qk = some qs) :
    ∃ qs', (addEdge qk r s).lookupQ qk = some qs' ∧
      qs'.upstreamSet = addUniq qs.upstreamSet r ∧ qs'.upstreamGen = qs.upstreamGen := by
  have hup : (addUp qk r s).lookupQ qk =
      some { qs with upstreamSet := addUniq qs.upstreamSet r } := by
    simp only [addUp]
    rw [lookupQ_setQ_self, hj]
    rfl
  cases r with
  | state k => exact ⟨_, hup, rfl, rfl⟩
  | entity k => exact ⟨_, hup, rfl, rfl⟩
  | query k =>
    simp only [addEdge, addDown]
    by_cases hk : qk = k
    · subst hk
      rw [lookupQ_setQ_self, hup]
      exact ⟨_, rfl, rfl, rfl⟩
    · rw [lookupQ_setQ_ne _ _ _ _ hk]
      exact ⟨_, hup, rfl, rfl⟩

theorem refHasDown_addEdge_self (qk : Key) (r : NodeRef) (s : Store V)
    (h : refExists s r = true) : refHasDown (addEdge qk r s) r qk = true := by
  cases r with
  | state k =>
    simp only [refExists, Option.isSome_iff_exists] at h
    rcases h with ⟨ss, hss⟩
    have hl : (addEdge qk (NodeRef.state k) s).lookupS k =
        some { ss with downstreamSet := addUniq ss.downstreamSet qk } := by
      show ((addUp qk (NodeRef.state k) s).setS k _).lookupS k = _
      rw [lookupS_setS_self]
      show (s.lookupS k).map _ = _
      rw [hss]
      rfl
    simp [refHasDown, hl, mem_addUniq_self]
  | entity k =>
    simp only [refExists, Option.isSome_iff_exists] at h
    rcases h with ⟨es, hes⟩
    have hl : (addEdge qk (NodeRef.entity k) s).lookupE k =
        some { es with downstreamSet := addUniq es.downstreamSet qk } := by
      show ((addUp qk (NodeRef.entity k) s).setE k _).lookupE k = _
      rw [lookupE_setE_self]
      show (s.lookupE k).map _ = _
      rw [hes]
      rfl
    simp [refHasDown, hl, mem_addUniq_self]
  | query k =>
    simp only [refExists, Option.isSome_iff_exists] at h
    rcases h with ⟨u, hu⟩
    have hx : ∃ x, (addUp qk (NodeRef.query k) s).lookupQ k = some x := by
      simp only [addUp]
      by_cases hk : k = qk
      · subst hk
        rw [lookupQ_setQ_self, hu]
        exact ⟨_, rfl⟩
      · rw [lookupQ_setQ_ne _ _ _ _ hk]
        exact ⟨u, hu⟩
    rcases hx with ⟨x, hx⟩
    have hl : (addEdge qk (NodeRef.query k) s).lookupQ k =
        some { x with downstreamSet := addUniq x.downstreamSet qk } := by
      show ((addUp qk (NodeRef.query k) s).setQ k _).lookupQ k = _
      rw [lookupQ_setQ_self, hx]
      rfl
    simp [refHasDown, hl, mem_addUniq_self]

omit [DecidableEq V] in
theorem ensureState_lookup (D : Decls V) (k : Key) (s : Store V) :
    ((ensureState D k s).2).lookupS k = some (ensureState D k s).1 := by
  unfold ensureState
  cases hq : s.lookupS k with
  | some ss => exact hq
  | none =>
    show (s.insertS k _).lookupS k = some _
    have hq' : lookupA s.stateMap k = none := hq
    simp [Store.insertS, Store.lookupS, lookupA_append, hq', Option.orElse]

omit [DecidableEq V] in
theorem ensureEntity_lookup (D : Decls V) (k : Key) (s : Store V) :
    ((ensureEntity D k s).2).lookupE k = some (ensureEntity D k s).1 := by
  unfold ensureEntity
  cases hq : s.lookupE k with
  | some es => exact hq
  | none =>
    show (s.insertE k _).lookupE k = some _
    have hq' : lookupA s.entityMap k = none := hq
    simp [Store.insertE, Store.lookupE, lookupA_append, hq', Option.orElse]

theorem createQueryStorage_ok_present (D : Decls V) (n : Nat) (k : Key) (s s₁ : Store V)
    (h : createQueryStorage D n k s = .ok () s₁) : ∃ u, s₁.lookupQ k = some u := by
  match n with
  | 0 => simp [createQueryStorage] at h
  | m + 1 =>
    simp only [createQueryStorage] at h
    cases he : evalQueryImpl D m none k (D.queryImpl k) s with
    | ok p sa =>
      rcases p with ⟨v, reads⟩
      rw [he] at h
      simp only [Res.andThen, Res.ok.injEq] at h
      rw [← h.2]
      show ∃ u, lookupA (sa.queryMap ++ [(k, _)]) k = some u
      rw [lookupA_append]
      cases hl : lookupA sa.queryMap k with
      | some u => exact ⟨u, rfl⟩
      | none => simp [Option.orElse]
    | err e sa => rw [he] at h; simp [Res.andThen] at h
    | fuel => rw [he] at h; simp [Res.andThen] at h

theorem getQueryStorage_ok_present (D : Decls V) (n : Nat) (k : Key) (s s₁ : Store V)
    (h : getQueryStorage D n k s = .ok () s₁) : ∃ u, s₁.lookupQ k = some u := by
  match n with
  | 0 => simp [getQueryStorage] at h
  | m + 1 =>
    simp only [getQueryStorage] at h
    cases hq : s.lookupQ k with
    | some u =>
      rw [hq] at h
      simp only [Res.ok.injEq] at h
      exact ⟨u, h.2 ▸ hq⟩
    | none =>
      rw [hq] at h
      exact createQueryStorage_ok_present D m k s s₁ h

theorem not_mem_removeAll {α : Type} [DecidableEq α] (xs : List α) (x : α) :
    x ∉ removeAll xs x := by
  simp [removeAll, List.mem_filter]

theorem mem_of_mem_removeAll {α : Type} [DecidableEq α] {xs : List α} {x y : α}
    (h : y ∈ removeAll xs x) : y ∈ xs := by
  simp only [removeAll, List.mem_filter] at h
  exact h.1

omit [DecidableEq V] in
theorem refHasDown_addClear_eq (s : Store V) (k : Key) (r : NodeRef) (j : Key) :
    refHasDown (s.addClear k) r j = refHasDown s r j := by
  cases r <;> rfl

theorem refHasDown_detachOne_self (qk : Key) (r : NodeRef) (s : Store V) :
    refHasDown (detachOne qk r s) r qk = false := by
  cases r with
  | state k =>
    simp only [detachOne, refHasDown]
    rw [lookupS_setS_self]
    cases hl : s.lookupS k with
    | none => rfl
    | some ss => simp [not_mem_removeAll]
  | entity k =>
    simp only [detachOne, refHasDown]
    rw [lookupE_setE_self]
    cases hl : s.lookupE k with
    | none => rfl
    | some es => simp [not_mem_removeAll]
  | query uk =>
    have hbase : refHasDown (s.setQ uk fun qs =>
        { qs with downstreamSet := removeAll qs.downstreamSet qk }) (NodeRef.query uk) qk
        = false := by
      simp only [refHasDown]
      rw [lookupQ_setQ_self]
      cases hl : s.lookupQ uk with
      | none => rfl
      | some us => simp [not_mem_removeAll]
    simp only [detachOne]
    cases hq2 : (s.setQ uk fun qs =>
        { qs with downstreamSet := removeAll qs.downstreamSet qk }).lookupQ uk with
    | none => exact hbase
    | some us =>
      by_cases he : us.downstreamSet.isEmpty <;>
        simp only [he, if_true, if_false, Bool.false_eq_true]
      · rw [refHasDown_addClear_eq]
        exact hbase
      · exact hbase

theorem refHasDown_detachOne_rev (qk : Key) (r r' : NodeRef) (s : Store V)
    (h : refHasDown (detachOne qk r' s) r qk = true) : refHasDown s r qk = true := by
  cases r' with
  | state k =>
    cases r with
    | state k2 =>
      simp only [detachOne, refHasDown] at h ⊢
      by_cases hk : k2 = k
      · subst hk
        rw [lookupS_setS_self] at h
        cases hl : s.lookupS k2 with
        | none => rw [hl] at h; simp at h
        | some ss =>
          rw [hl] at h
          simp only [Option.map_some'] at h
          simp only [decide_eq_true_eq] at h ⊢
          exact mem_of_mem_removeAll h
      · rw [lookupS_setS_ne _ _ _ _ hk] at h
        exact h
    | entity k2 => exact h
    | query k2 => exact h
  | entity k =>
    cases r with
    | state k2 => exact h
    | entity k2 =>
      simp only [detachOne, refHasDown] at h ⊢
      by_cases hk : k2 = k
      · subst hk
        rw [lookupE_setE_self] at h
        cases hl : s.lookupE k2 with
        | none => rw [hl] at h; simp at h
        | some es =>
          rw [hl] at h
          simp only [Option.map_some'] at h
          simp only [decide_eq_true_eq] at h ⊢
          exact mem_of_mem_removeAll h
      · rw [lookupE_setE_ne _ _ _ _ hk] at h
        exact h
    | query k2 => exact h
  | query uk =>
    have hcol : refHasDown (detachOne qk (NodeRef.query uk) s) r qk =
        refHasDown (s.setQ uk fun qs =>
          { qs with downstreamSet := removeAll qs.downstreamSet qk }) r qk := by
      simp only [detachOne]
      cases hq2 : (s.setQ uk fun qs =>
          { qs with downstreamSet := removeAll qs.downstreamSet qk }).lookupQ uk with
      | none => rfl
      | some us =>
        by_cases he : us.downstreamSet.isEmpty <;>
          simp [he, refHasDown_addClear_eq]
    rw [hcol] at h
    cases r with
    | state k2 => exact h
    | entity k2 => exact h
    | query k2 =>
      simp only [refHasDown] at h ⊢
      by_cases hk : k2 = uk
      · subst hk
        rw [lookupQ_setQ_self] at h
        cases hl : s.lookupQ k2 with
        | none => rw [hl] at h; simp at h
        | some us =>
          rw [hl] at h
          simp only [Option.map_some'] at h
          simp only [decide_eq_true_eq] at h ⊢
          exact mem_of_mem_removeAll h
      · rw [lookupQ_setQ_ne _ _ _ _ hk] at h
        exact h

theorem refHasDown_detachOldUpstreams_rev (qk : Key) (refs : List NodeRef) (r : NodeRef)
    (s : Store V) (h : refHasDown (detachOldUpstreams qk refs s) r qk = true) :
    refHasDown s r qk = true := by
  induction refs generalizing s with
  | nil => exact h
  | cons r' rest ih =>
    exact refHasDown_detachOne_rev qk r r' s (ih (detachOne qk r' s) h)

theorem refHasDown_detachOldUpstreams_false (qk : Key) (refs : List NodeRef) (r : NodeRef)
    (s : Store V) (h : refHasDown s r qk = false) :
    refHasDown (detachOldUpstreams qk refs s) r qk = false := by
  cases hx : refHasDown (detachOldUpstreams qk refs s) r qk with
  | false => rfl
  | true =>
    have := refHasDown_detachOldUpstreams_rev qk refs r s hx
    rw [this] at h
    exact h

theorem detachOldUpstreams_removes (qk : Key) (refs : List NodeRef) (s : Store V) :
    ∀ r ∈ refs, refHasDown (detachOldUpstreams qk refs s) r qk = false := by
  induction refs generalizing s with
  | nil => intro r hr; cases hr
  | cons r' rest ih =>
    intro r hr
    rcases List.mem_cons.1 hr with hr | hr
    · subst hr
      exact refHasDown_detachOldUpstreams_false qk rest r (detachOne qk r s)
        (refHasDown_detachOne_self qk r s)
    · exact ih (detachOne qk r' s) r hr

omit [DecidableEq V] in
theorem GenPres.pin {x : Option Key} {s s' : Store V} (h : GenPres x s s')
    {qk : Key} {a b : QueryStorage V}
    (ha : s.lookupQ qk = some a) (hb : s'.lookupQ qk = some b) :
    a.upstreamGen ≤ b.upstreamGen ∧
    (b.upstreamGen = a.upstreamGen →
      (x ≠ some qk → b.upstreamSet = a.upstreamSet) ∧
      ∀ r, refHasDown s r qk = true → refHasDown s' r qk = true) := by
  rcases h qk a ha with ⟨c, hc, hm, hcl⟩
  rw [hb] at hc
  cases Option.some.inj hc
  exact ⟨hm, hcl⟩

/-- Exactness of the tracked recomputation context: a successful evaluation
under generation `g` that ends with the query still at generation `g`
(its edge-set identity intact, as in every run without a nested self
recomputation) grows the upstream set by exactly the reads performed, in
order, and installs the downstream half of every one of those edges. -/
theorem eval_tracks (D : Decls V) :
    ∀ (n : Nat), ∀ (g : Nat) (qk : Key) (t : QueryImpl V) (s s' : Store V)
      (v : V) (reads : List NodeRef) (qs qs' : QueryStorage V),
    evalQueryImpl D n (some g) qk t s = .ok (v, reads) s' →
    s.lookupQ qk = some qs → qs.upstreamGen = g →
    s'.lookupQ qk = some qs' → qs'.upstreamGen = g →
    qs'.upstreamSet = reads.foldl addUniq qs.upstreamSet ∧
    ∀ r ∈ reads, refHasDown s' r qk = true := by
  intro n
  induction n with
  | zero =>
    intro g qk t s s' v reads qs qs' h
    simp [evalQueryImpl] at h
  | succ m ih =>
    intro g qk t s s' v reads qs qs' h hq hg hq' hg'
    cases t with
    | ret v0 =>
      simp only [evalQueryImpl, Res.ok.injEq, Prod.mk.injEq] at h
      obtain ⟨⟨hv, hr⟩, hs⟩ := h
      subst hs
      subst hr
      rw [hq] at hq'
      cases Option.some.inj hq'
      exact ⟨rfl, by intro r hr; cases hr⟩
    | throwErr => simp [evalQueryImpl] at h
    | readState k cont =>
      simp only [evalQueryImpl] at h
      rcases hes : ensureState D k s with ⟨ss, s₁⟩
      rw [hes] at h
      simp only at h
      have hpres1 : GenPres (none : Option Key) s s₁ := by
        have hh := GenPres_ensureState none D k s
        rw [hes] at hh
        exact hh
      obtain ⟨qs₁, hq1, hm1, hcl1⟩ := hpres1 qk qs hq
      by_cases htg : trackGuard (some g) qk s₁ = true
      · rw [if_pos htg] at h
        have hgen1 : qs₁.upstreamGen = g := by
          simp [trackGuard, hq1] at htg
          exact htg
        have hup1 : qs₁.upstreamSet = qs.upstreamSet :=
          (hcl1 (hgen1.trans hg.symm)).1 (by simp)
        obtain ⟨qs₂, hq2, hup2, hgen2⟩ := lookupQ_addEdge_self (NodeRef.state k) hq1
        have hedge2 : refHasDown (addEdge qk (NodeRef.state k) s₁) (NodeRef.state k) qk
            = true := by
          apply refHasDown_addEdge_self
          have hls : s₁.lookupS k = some ss := by
            have hh := ensureState_lookup D k s
            rw [hes] at hh
            exact hh
          simp [refExists, hls]
        cases hrec : evalQueryImpl D m (some g) qk (cont ss.currentState)
            (addEdge qk (NodeRef.state k) s₁) with
        | ok p s₃ =>
          rcases p with ⟨v2, tr⟩
          rw [hrec] at h
          simp only [Res.andThen, Res.ok.injEq, Prod.mk.injEq] at h
          obtain ⟨⟨hv, hreads⟩, hs3⟩ := h
          rw [hs3] at hrec
          subst hreads
          have hih := ih g qk (cont ss.currentState) (addEdge qk (NodeRef.state k) s₁)
            s' v2 tr qs₂ qs' hrec hq2 (hgen2.trans hgen1) hq' hg'
          refine ⟨?_, ?_⟩
          · rw [hih.1, hup2, hup1]
            rfl
          · intro r hr
            rcases List.mem_cons.1 hr with hr | hr
            · subst hr
              have hpres2 : GenPres (some qk) (addEdge qk (NodeRef.state k) s₁) s' :=
                ((cluster_genpres D m).2.2.1) (some g) qk (cont ss.currentState) _ s'
                  (by rw [hrec]; rfl)
              exact ((hpres2.pin hq2 hq').2 (by rw [hg', hgen2, hgen1])).2 _ hedge2
            · exact hih.2 r hr
        | err e s₃ =>
          rw [hrec] at h
          simp [Res.andThen] at h
        | fuel =>
          rw [hrec] at h
          simp [Res.andThen] at h
      · rw [if_neg htg] at h
        have hne : qs₁.upstreamGen ≠ g := fun hcontra =>
          htg (trackGuard_eq_true hq1 hcontra)
        cases hrec : evalQueryImpl D m (some g) qk (cont ss.currentState) s₁ with
        | ok p s₃ =>
          rw [hrec] at h
          simp only [Res.andThen, Res.ok.injEq] at h
          have hpres2 : GenPres (some qk) s₁ s' :=
            ((cluster_genpres D m).2.2.1) (some g) qk (cont ss.currentState) s₁ s'
              (by rw [hrec, ← h.2]; rfl)
          have hm2 := (hpres2.pin hq1 hq').1
          omega
        | err e s₃ =>
          rw [hrec] at h
          simp [Res.andThen] at h
        | fuel =>
          rw [hrec] at h
          simp [Res.andThen] at h
    | readEntity k cont =>
      simp only [evalQueryImpl] at h
      rcases hes : ensureEntity D k s with ⟨es, s₁⟩
      rw [hes] at h
      simp only at h
      have hpres1 : GenPres (none : Option Key) s s₁ := by
        have hh := GenPres_ensureEntity none D k s
        rw [hes] at hh
        exact hh
      obtain ⟨qs₁, hq1, hm1, hcl1⟩ := hpres1 qk qs hq
      by_cases htg : trackGuard (some g) qk s₁ = true
      · rw [if_pos htg] at h
        have hgen1 : qs₁.upstreamGen = g := by
          simp [trackGuard, hq1] at htg
          exact htg
        have hup1 : qs₁.upstreamSet = qs.upstreamSet :=
          (hcl1 (hgen1.trans hg.symm)).1 (by simp)
        obtain ⟨qs₂, hq2, hup2, hgen2⟩ := lookupQ_addEdge_self (NodeRef.entity k) hq1
        have hedge2 : refHasDown (addEdge qk (NodeRef.entity k) s₁) (NodeRef.entity k) qk
            = true := by
          apply refHasDown_addEdge_self
          have hls : s₁.lookupE k = some es := by
            have hh := ensureEntity_lookup D k s
            rw [hes] at hh
            exact hh
          simp [refExists, hls]
        cases hge : getCurrentEntity D k (addEdge qk (NodeRef.entity k) s₁) with
        | ok v0 s₃ =>
          rw [hge] at h
          simp only [Res.andThen] at h
          have hpres3 : GenPres (none : Option Key) (addEdge qk (NodeRef.entity k) s₁) s₃ :=
            GenPres_getCurrentEntity none D k _ s₃ (by rw [hge]; rfl)
          obtain ⟨qs₃, hq3, hm3, hcl3⟩ := hpres3 qk qs₂ hq2
          cases hrec : evalQueryImpl D m (some g) qk (cont v0) s₃ with
          | ok p s₄ =>
            rcases p with ⟨v2, tr⟩
            rw [hrec] at h
            simp only [Res.andThen, Res.ok.injEq, Prod.mk.injEq] at h
            obtain ⟨⟨hv, hreads⟩, hs4⟩ := h
            rw [hs4] at hrec
            subst hreads
            have hpres4 : GenPres (some qk) s₃ s' :=
              ((cluster_genpres D m).2.2.1) (some g) qk (cont v0) s₃ s' (by rw [hrec]; rfl)
            have hm4 := (hpres4.pin hq3 hq').1
            have hgen3 : qs₃.upstreamGen = g := by
              have := hgen2.trans hgen1
              omega
            have hclu3 := hcl3 (by rw [hgen3, hgen2, hgen1])
            have hup3 : qs₃.upstreamSet = qs₂.upstreamSet := hclu3.1 (by simp)
            have hih := ih g qk (cont v0) s₃ s' v2 tr qs₃ qs' hrec hq3 hgen3 hq' hg'
            refine ⟨?_, ?_⟩
            · rw [hih.1, hup3, hup2, hup1]
              rfl
            · intro r hr
              rcases List.mem_cons.1 hr with hr | hr
              · subst hr
                have hedge3 : refHasDown s₃ (NodeRef.entity k) qk = true :=
                  hclu3.2 _ hedge2
                exact ((hpres4.pin hq3 hq').2 (by rw [hg', hgen3])).2 _ hedge3
              · exact hih.2 r hr
          | err e s₄ =>
            rw [hrec] at h
            simp [Res.andThen] at h
          | fuel =>
            rw [hrec] at h
            simp [Res.andThen] at h
        | err e s₃ =>
          rw [hge] at h
          simp [Res.andThen] at h
        | fuel =>
          rw [hge] at h
          simp [Res.andThen] at h
      · rw [if_neg htg] at h
        have hne : qs₁.upstreamGen ≠ g := fun hcontra =>
          htg (trackGuard_eq_true hq1 hcontra)
        cases hge : getCurrentEntity D k s₁ with
        | ok v0 s₃ =>
          rw [hge] at h
          simp only [Res.andThen] at h
          have hpres3 : GenPres (none : Option Key) s₁ s₃ :=
            GenPres_getCurrentEntity none D k s₁ s₃ (by rw [hge]; rfl)
          obtain ⟨qs₃, hq3, hm3, _⟩ := hpres3 qk qs₁ hq1
          cases hrec : evalQueryImpl D m (some g) qk (cont v0) s₃ with
          | ok p s₄ =>
            rw [hrec] at h
            simp only [Res.andThen, Res.ok.injEq] at h
            have hpres4 : GenPres (some qk) s₃ s' :=
              ((cluster_genpres D m).2.2.1) (some g) qk (cont v0) s₃ s'
                (by rw [hrec, ← h.2]; rfl)
            have hm4 := (hpres4.pin hq3 hq').1
            omega
          | err e s₄ =>
            rw [hrec] at h
            simp [Res.andThen] at h
          | fuel =>
            rw [hrec] at h
            simp [Res.andThen] at h
        | err e s₃ =>
          rw [hge] at h
          simp [Res.andThen] at h
        | fuel =>
          rw [hge] at h
          simp [Res.andThen] at h
    | readQuery k cont =>
      simp only [evalQueryImpl] at h
      cases hgq : getQueryStorage D m k s with
      | ok u0 s₁ =>
        rw [hgq] at h
        simp only [Res.andThen] at h
        have hpres1 : GenPres (none : Option Key) s s₁ :=
          (cluster_genpres D m).1 k s s₁ (by rw [hgq]; rfl)
        obtain ⟨qs₁, hq1, hm1, hcl1⟩ := hpres1 qk qs hq
        by_cases htg : trackGuard (some g) qk s₁ = true
        · rw [if_pos htg] at h
          have hgen1 : qs₁.upstreamGen = g := by
            simp [trackGuard, hq1] at htg
            exact htg
          have hup1 : qs₁.upstreamSet = qs.upstreamSet :=
            (hcl1 (hgen1.trans hg.symm)).1 (by simp)
          obtain ⟨qs₂, hq2, hup2, hgen2⟩ := lookupQ_addEdge_self (NodeRef.query k) hq1
          have hedge2 : refHasDown (addEdge qk (NodeRef.query k) s₁) (NodeRef.query k) qk
              = true := by
            apply refHasDown_addEdge_self
            obtain ⟨u, hu⟩ := getQueryStorage_ok_present D m k s s₁ hgq
            simp [refExists, hu]
          cases hgv : getCurrentQueryValue D m k (addEdge qk (NodeRef.query k) s₁) with
          | ok v0 s₃ =>
            rw [hgv] at h
            simp only [Res.andThen] at h
            have hpres3 : GenPres (none : Option Key) (addEdge qk (NodeRef.query k) s₁) s₃ :=
              (cluster_genpres D m).2.2.2.1 k _ s₃ (by rw [hgv]; rfl)
            obtain ⟨qs₃, hq3, hm3, hcl3⟩ := hpres3 qk qs₂ hq2
            cases hrec : evalQueryImpl D m (some g) qk (cont v0) s₃ with
            | ok p s₄ =>
              rcases p with ⟨v2, tr⟩
              rw [hrec] at h
              simp only [Res.andThen, Res.ok.injEq, Prod.mk.injEq] at h
              obtain ⟨⟨hv, hreads⟩, hs4⟩ := h
              rw [hs4] at hrec
              subst hreads
              have hpres4 : GenPres (some qk) s₃ s' :=
                ((cluster_genpres D m).2.2.1) (some g) qk (cont v0) s₃ s'
                  (by rw [hrec]; rfl)
              have hm4 := (hpres4.pin hq3 hq').1
              have hgen3 : qs₃.upstreamGen = g := by
                have := hgen2.trans hgen1
                omega
              have hclu3 := hcl3 (by rw [hgen3, hgen2, hgen1])
              have hup3 : qs₃.upstreamSet = qs₂.upstreamSet := hclu3.1 (by simp)
              have hih := ih g qk (cont v0) s₃ s' v2 tr qs₃ qs' hrec hq3 hgen3 hq' hg'
              refine ⟨?_, ?_⟩
              · rw [hih.1, hup3, hup2, hup1]
                rfl
              · intro r hr
                rcases List.mem_cons.1 hr with hr | hr
                · subst hr
                  have hedge3 : refHasDown s₃ (NodeRef.query k) qk = true :=
                    hclu3.2 _ hedge2
                  exact ((hpres4.pin hq3 hq').2 (by rw [hg', hgen3])).2 _ hedge3
                · exact hih.2 r hr
            | err e s₄ =>
              rw [hrec] at h
              simp [Res.andThen] at h
            | fuel =>
              rw [hrec] at h
              simp [Res.andThen] at h
          | err e s₃ =>
            rw [hgv] at h
            simp [Res.andThen] at h
          | fuel =>
            rw [hgv] at h
            simp [Res.andThen] at h
        · rw [if_neg htg] at h
          have hne : qs₁.upstreamGen ≠ g := fun hcontra =>
            htg (trackGuard_eq_true hq1 hcontra)
          cases hgv : getCurrentQueryValue D m k s₁ with
          | ok v0 s₃ =>
            rw [hgv] at h
            simp only [Res.andThen] at h
            have hpres3 : GenPres (none : Option Key) s₁ s₃ :=
              (cluster_genpres D m).2.2.2.1 k s₁ s₃ (by rw [hgv]; rfl)
            obtain ⟨qs₃, hq3, hm3, _⟩ := hpres3 qk qs₁ hq1
            cases hrec : evalQueryImpl D m (some g) qk (cont v0) s₃ with
            | ok p s₄ =>
              rw [hrec] at h
              simp only [Res.andThen, Res.ok.injEq] at h
              have hpres4 : GenPres (some qk) s₃ s' :=
                ((cluster_genpres D m).2.2.1) (some g) qk (cont v0) s₃ s'
                  (by rw [hrec, ← h.2]; rfl)
              have hm4 := (hpres4.pin hq3 hq').1
              omega
            | err e s₄ =>
              rw [hrec] at h
              simp [Res.andThen] at h
            | fuel =>
              rw [hrec] at h
              simp [Res.andThen] at h
          | err e s₃ =>
            rw [hgv] at h
            simp [Res.andThen] at h
          | fuel =>
            rw [hgv] at h
            simp [Res.andThen] at h
      | err e s₁ =>
        rw [hgq] at h
        simp [Res.andThen] at h
      | fuel =>
        rw [hgq] at h
        simp [Res.andThen] at h

end Remesh

namespace Remesh
variable {V : Type} [DecidableEq V]

/-!
## C3: edge replacement on recomputation
-/

/-- The store carried by the throw of `updateQueryStorage DC5 _ 6 c5s1b`:
query 6's recomputation reads state 0 = 1 and throws. -/
def c3err : Store Int :=
  { stateMap := [(0, { currentState := 1, downstreamSet := [6] }),
                 (9, { currentState := 0, downstreamSet := [] })],
    entityMap := [],
    queryMap := [(6,
                  { currentValue := 0,
                    upstreamSet := [Remesh.NodeRef.state 0],
                    downstreamSet := [],
                    refCount := 0,
                    status := Remesh.QStatus.wip,
                    wipUpstreamSet := [Remesh.NodeRef.state 0],
                    upstreamGen := 1 })],
    pendingEmitSet := [Remesh.EmitItem.stateEmit 0],
    pendingLeafSet := [6],
    pendingClearSet := [],
    emitted := [],
    running := false }

/-- The store after `updateQueryStorage DC8 _ 4 c8s4`: query 4 recomputed
from state 0 = 1 to the value 99, its upstream set shrank to the single
node actually read. -/
def c3post : Store Int :=
  { stateMap := [(0, { currentState := 1, downstreamSet := [4] })],
    entityMap := [(5, { currentEntity := none, downstreamSet := [] })],
    queryMap := [(4,
                  { currentValue := 99,
                    upstreamSet := [Remesh.NodeRef.state 0],
                    downstreamSet := [],
                    refCount := 0,
                    status := Remesh.QStatus.wip,
                    wipUpstreamSet := [Remesh.NodeRef.state 0],
                    upstreamGen := 2 })],
    pendingEmitSet := [Remesh.EmitItem.stateEmit 0, Remesh.EmitItem.entityDelete 5,
                       Remesh.EmitItem.queryEmit 4],
    pendingLeafSet := [4],
    pendingClearSet := [],
    emitted := [Remesh.Notif.stateN 0 0],
    running := false }

/-- The query-4 storage held in `c8s4` (two old upstream edges, gen 1). -/
def c3qs : QueryStorage Int :=
  { currentValue := 7,
    upstreamSet := [Remesh.NodeRef.state 0, Remesh.NodeRef.entity 5],
    downstreamSet := [],
    refCount := 0,
    status := Remesh.QStatus.wip,
    wipUpstreamSet := [Remesh.NodeRef.state 0],
    upstreamGen := 1 }

/-- C3 counterexample: the spec claims the old upstream edges are removed
only after the evaluation function returns (no stale or missing edges
observable mid-evaluation).  On the concrete run the recomputation of
query 6 throws — the evaluation function never returns — yet in the store
carried by the throw the old edge from state 9 is already gone and the old
upstream set has already been replaced by the partial tracked set, so the
removal happened before/under the evaluation, not after it returned. -/
theorem claim_C3_counterexample :
    (c5s1b.lookupS 9).map (fun t => t.downstreamSet) = some [6] ∧
    (c5s1b.lookupQ 6).map (fun t => t.upstreamSet) = some [.state 0, .state 9] ∧
    updateQueryStorage DC5 11 6 c5s1b = .err "query-impl-throw" c3err ∧
    (c3err.lookupS 9).map (fun t => t.downstreamSet) = some [] ∧
    (c3err.lookupQ 6).map (fun t => t.upstreamSet) = some [.state 0] :=
  ⟨by decide, by decide, by decide, by decide, by decide⟩

/-- C3 (amended): `updateQueryStorage` removes the old upstream edges and
installs a fresh empty upstream set BEFORE invoking the evaluation
function; after a successful recomputation whose generation is intact (no
nested recomputation of the same query re-bumped it — the source's `!==`
edge-set identity guard), the upstream set holds exactly the nodes read
during that evaluation, deduplicated in first-read order, and every read
node's downstream set holds the query. -/
theorem claim_C3_amended (D : Decls V) (n : Nat) (qk : Key) (s s' : Store V)
    (qs : QueryStorage V) (b : Bool)
    (hq : s.lookupQ qk = some qs)
    (h : updateQueryStorage D (n + 1) qk s = .ok b s') :
    (∀ r ∈ qs.upstreamSet,
        refHasDown (detachOldUpstreams qk qs.upstreamSet s) r qk = false) ∧
    (∃ q₂, ((detachOldUpstreams qk qs.upstreamSet s).setQ qk fun q =>
          { q with upstreamSet := [], upstreamGen := qs.upstreamGen + 1 }).lookupQ qk
        = some q₂ ∧ q₂.upstreamSet = [] ∧ q₂.upstreamGen = qs.upstreamGen + 1) ∧
    ∃ v reads s₃ qs',
      evalQueryImpl D n (some (qs.upstreamGen + 1)) qk (D.queryImpl qk)
          ((detachOldUpstreams qk qs.upstreamSet s).setQ qk fun q =>
            { q with upstreamSet := [], upstreamGen := qs.upstreamGen + 1 })
        = .ok (v, reads) s₃ ∧
      s'.lookupQ qk = some qs' ∧
      (qs'.upstreamGen = qs.upstreamGen + 1 →
        qs'.upstreamSet = reads.foldl addUniq [] ∧
        ∀ r ∈ reads, refHasDown s' r qk = true) := by
  obtain ⟨qsd, hld, hgd, hud⟩ := (detachOldUpstreams_frame qk qs.upstreamSet s).1 qk qs hq
  have hq2 : ((detachOldUpstreams qk qs.upstreamSet s).setQ qk fun q =>
      { q with upstreamSet := [], upstreamGen := qs.upstreamGen + 1 }).lookupQ qk
      = some { qsd with upstreamSet := [], upstreamGen := qs.upstreamGen + 1 } := by
    rw [lookupQ_setQ_self, hld]
    rfl
  refine ⟨detachOldUpstreams_removes qk qs.upstreamSet s, ⟨_, hq2, rfl, rfl⟩, ?_⟩
  simp only [updateQueryStorage] at h
  rw [hq] at h
  simp only at h
  cases hrec : evalQueryImpl D n (some (qs.upstreamGen + 1)) qk (D.queryImpl qk)
      ((detachOldUpstreams qk qs.upstreamSet s).setQ qk fun q =>
        { q with upstreamSet := [], upstreamGen := qs.upstreamGen + 1 }) with
  | ok p s₃ =>
    rcases p with ⟨v, reads⟩
    rw [hrec] at h
    simp only [Res.andThen] at h
    rcases hcm : commitQueryValue D qk v s₃ with ⟨b2, s₄⟩
    rw [hcm] at h
    simp only [Res.ok.injEq] at h
    obtain ⟨hb2, hs4⟩ := h
    subst hs4
    have hpc : GenPres (none : Option Key) s₃ s₄ := by
      have hh := GenPres_commitQueryValue D qk v s₃
      rw [hcm] at hh
      exact hh
    have hpe : GenPres (some qk)
        ((detachOldUpstreams qk qs.upstreamSet s).setQ qk fun q =>
          { q with upstreamSet := [], upstreamGen := qs.upstreamGen + 1 }) s₃ :=
      ((cluster_genpres D n).2.2.1) (some (qs.upstreamGen + 1)) qk (D.queryImpl qk) _ s₃
        (by rw [hrec]; rfl)
    obtain ⟨qs₃, hq3, hm3, _⟩ := hpe qk _ hq2
    obtain ⟨qs₄, hq4, hm4, hcl4⟩ := hpc qk qs₃ hq3
    refine ⟨v, reads, s₃, qs₄, rfl, hq4, ?_⟩
    intro hgen4
    have hm3' : qs.upstreamGen + 1 ≤ qs₃.upstreamGen := hm3
    have hgen3 : qs₃.upstreamGen = qs.upstreamGen + 1 := by omega
    have hx := eval_tracks D n (qs.upstreamGen + 1) qk (D.queryImpl qk) _ s₃ v reads
      { qsd with upstreamSet := [], upstreamGen := qs.upstreamGen + 1 } qs₃
      hrec hq2 rfl hq3 hgen3
    have hclu := hcl4 (by omega)
    refine ⟨?_, ?_⟩
    · rw [hclu.1 (by simp), hx.1]
    · intro r hr
      exact hclu.2 r (hx.2 r hr)
  | err e s₃ =>
    rw [hrec] at h
    simp [Res.andThen] at h
  | fuel =>
    rw [hrec] at h
    simp [Res.andThen] at h

theorem claim_C3_witness :
    (∀ r ∈ c3qs.upstreamSet,
        refHasDown (detachOldUpstreams 4 c3qs.upstreamSet c8s4) r 4 = false) ∧
    (∃ q₂, ((detachOldUpstreams 4 c3qs.upstreamSet c8s4).setQ 4 fun q =>
          { q with upstreamSet := [], upstreamGen := c3qs.upstreamGen + 1 }).lookupQ 4
        = some q₂ ∧ q₂.upstreamSet = [] ∧ q₂.upstreamGen = c3qs.upstreamGen + 1) ∧
    ∃ v reads s₃ qs',
      evalQueryImpl DC8 11 (some (c3qs.upstreamGen + 1)) 4 (DC8.queryImpl 4)
          ((detachOldUpstreams 4 c3qs.upstreamSet c8s4).setQ 4 fun q =>
            { q with upstreamSet := [], upstreamGen := c3qs.upstreamGen + 1 })
        = .ok (v, reads) s₃ ∧
      c3post.lookupQ 4 = some qs' ∧
      (qs'.upstreamGen = c3qs.upstreamGen + 1 →
        qs'.upstreamSet = reads.foldl addUniq [] ∧
        ∀ r ∈ reads, refHasDown c3post r 4 = true) :=
  claim_C3_amended DC8 11 4 c8s4 c3post c3qs true (by decide) (by decide)

/-!
## C6: edge symmetry
-/

/-- Whether query `j` currently lists `r` in its upstream set (the upstream
half of an edge). -/
def refInUpstream {V : Type} (s : Store V) (r : NodeRef) (j : Key) : Bool :=
  match s.lookupQ j with
  | some qs => r ∈ qs.upstreamSet
  | none => false

/-- The full edge-symmetry invariant the spec states: every upstream entry
of every query is mirrored by a downstream entry, and every downstream
entry of every state/entity/query storage is mirrored by an upstream
entry. -/
def edgeSymm {V : Type} (s : Store V) : Bool :=
  (s.queryMap.all fun p => p.2.upstreamSet.all fun r => refHasDown s r p.1) &&
  (s.stateMap.all fun p => p.2.downstreamSet.all fun j => refInUpstream s (.state p.1) j) &&
  (s.entityMap.all fun p => p.2.downstreamSet.all fun j => refInUpstream s (.entity p.1) j) &&
  (s.queryMap.all fun p => p.2.downstreamSet.all fun j => refInUpstream s (.query p.1) j)

/-- C6 (amended): `addEdge` — the only edge write of query evaluation and
recomputation under the tracked `get` — installs both halves of the edge in
one step, and the quiescent stores of the modelled runs that only wrote
states and (re)computed queries satisfy the full biconditional `edgeSymm`;
but `deleteEntityItem` clears only the entity's own downstream half, so
immediately after it the biconditional fails (the entity dangles in the
downstream query's upstream set). -/
theorem claim_C6_amended :
    (∀ (V : Type) [DecidableEq V] (qk : Key) (r : NodeRef) (s : Store V)
        (qs : QueryStorage V), s.lookupQ qk = some qs → refExists s r = true →
        ∃ qs', (addEdge qk r s).lookupQ qk = some qs' ∧ r ∈ qs'.upstreamSet ∧
          refHasDown (addEdge qk r s) r qk = true) ∧
    edgeSymm c8s3 = true ∧ edgeSymm c8s5 = true ∧
    deleteEntityItem DC8 12 5 c8s3 = .ok () c6s1 ∧ edgeSymm c6s1 = false := by
  refine ⟨?_, by decide, by decide, by decide, by decide⟩
  intro V _ qk r s qs hq hex
  obtain ⟨qs', h1, h2, _⟩ := lookupQ_addEdge_self r hq
  exact ⟨qs', h1, h2 ▸ mem_addUniq_self qs.upstreamSet r,
    refHasDown_addEdge_self qk r s hex⟩

theorem claim_C6_witness :
    ∃ qs', (addEdge 4 (NodeRef.entity 5) c8s2).lookupQ 4 = some qs' ∧
      NodeRef.entity 5 ∈ qs'.upstreamSet ∧
      refHasDown (addEdge 4 (NodeRef.entity 5) c8s2) (NodeRef.entity 5) 4 = true :=
  claim_C6_amended.1 Int 4 (NodeRef.entity 5) c8s2
    { currentValue := 7, upstreamSet := [NodeRef.state 0], downstreamSet := [],
      refCount := 0, status := .default, wipUpstreamSet := [], upstreamGen := 0 }
    (by decide) (by decide)

end Remesh
